import Mathlib

/-!
# Verification of the django-model-as-view core against its specification

Shallow embedding of the repository's pagination engine
(`mviews/serializer/utils.py`), depth computation and queryset expansion
(`mviews/mview/modelviews.py`), graph serializer
(`mviews/serializer/models2dicts.py`), JSON envelope builder
(`mviews/serializer/serializers.py`), aggregation parsing and the `latest`
restriction (`mviews/mview/modelviews.py`).

Python-level behaviour (exceptions, truthiness, `int()` conversion,
`str.split`, slice clamping, mutable `set` default arguments) is modelled
explicitly so that the embedded functions follow the source line by line.
-/

namespace MViews

/-- Python exceptions that the embedded code can raise. -/
inductive PyErr where
  | typeError
  | valueError
  | keyError
  | indexError
  | attributeError
  | doesNotExist
  | gasError
deriving Repr, DecidableEq

/-- A Python value appearing as a loosely-typed argument (query parameters
arrive as strings, internal defaults as ints, absent values as `None`). -/
inductive PyVal where
  | vint (n : Int)
  | vstr (s : String)
  | vnone
deriving Repr, DecidableEq

/-- Digits of a decimal literal, most significant first. -/
def digitsToNat? : List Char → Option Nat
  | [] => none
  | cs => if cs.all Char.isDigit
      then some (cs.foldl (fun a c => 10 * a + (c.toNat - 48)) 0)
      else none

/-- Python `int(s)` on a string: optional sign followed by decimal digits,
`none` when the string is not a numeric literal. -/
def pyIntOfStr? (s : String) : Option Int :=
  match s.data with
  | '-' :: rest => (digitsToNat? rest).map (fun n => -(n : Int))
  | ds => (digitsToNat? ds).map (fun n => (n : Int))

/-- Python `int(x)`: succeeds on ints and numeric strings, raises
`ValueError` on non-numeric strings and `TypeError` on `None`. -/
def pyInt : PyVal → Except PyErr Int
  | .vint n => .ok n
  | .vstr s =>
      match pyIntOfStr? s with
      | some n => .ok n
      | none => .error .valueError
  | .vnone => .error .typeError

/-- Python slice endpoint resolution for `xs[a:b]` (step 1): negative
indices count from the end, results are clamped to `[0, len]`. -/
def pySliceIdx (len : Nat) (i : Int) : Nat :=
  if i < 0 then ((len : Int) + i).toNat else min i.toNat len

/-- Python list slice `xs[a:b]`. -/
def pySlice (xs : List α) (a b : Int) : List α :=
  (xs.take (pySliceIdx xs.length b)).drop (pySliceIdx xs.length a)

/-- Request query parameters: an ordered key/value mapping. -/
abbrev Params := List (String × String)

/-- `params.get(k)` / `k in params`. -/
def pget (p : Params) (k : String) : Option String :=
  (p.find? (fun q => q.1 == k)).map (fun q => q.2)

/-- Python `s.split(sep)` for a one-character separator: splits at every
occurrence and keeps empty pieces (`"".split(sep) == [""]`). -/
def pySplit (sep : Char) (s : String) : List String :=
  (s.data.foldr
    (fun c acc =>
      match acc with
      | [] => [[c]]
      | cur :: rest => if c = sep then [] :: (cur :: rest) else (c :: cur) :: rest)
    [[]]).map (fun cs => ⟨cs⟩)

/-! ## The pagination engine (`mviews/serializer/utils.py`, `paginator`) -/

/-- The paging metadata dictionary built by `paginator`
(`utils.py` lines 78-82). -/
structure PagMeta where
  count : Nat
  number_of_pages : Nat
  page_num : Int
  limit : Nat
  returned : Int
deriving Repr, DecidableEq

/-- `utils.py` lines 62-65: `try: to_return = limit = 10 if int(limit) <= 0
else int(limit) except TypeError: to_return = limit = 10`.  Only
`TypeError` is caught, so the `ValueError` that `int()` raises on a
non-numeric string propagates to the caller. -/
def paginatorLimit (limit : PyVal) : Except PyErr Int :=
  match pyInt limit with
  | .ok n => .ok (if n ≤ 0 then 10 else n)
  | .error .typeError => .ok 10
  | .error e => .error e

/-- `utils.py` lines 66-69: `try: page_num = int(page_num)
except TypeError: page_num = 1`.  Again only `TypeError` is caught. -/
def paginatorPage (page_num : PyVal) : Except PyErr Int :=
  match pyInt page_num with
  | .ok n => .ok n
  | .error .typeError => .ok 1
  | .error e => .error e

/-- `utils.py` lines 70-82, the exception-free tail of `paginator` once the
limit and page arguments have been coerced:

* `number_pages = max(math.floor(count/limit), 2 if count > limit else 1)`;
* `page_num` is clamped down to `number_pages` when it exceeds it;
* `offset = limit * (page_num - 1)`; on the last page with `page_num > 1`
  and a positive remainder, `to_return` becomes `count - offset`;
* the slice `queryset[offset:end]` with `end = to_return * page_num` is
  returned together with the metadata dictionary. -/
def paginatorCore (qs : List α) (lim pg : Int) : List α × PagMeta :=
  let count := qs.length
  let limN : Nat := lim.toNat
  let number_pages : Nat := max (count / limN) (if limN < count then 2 else 1)
  let pg2 : Int := if pg ≤ (number_pages : Int) then pg else (number_pages : Int)
  let offset : Int := (limN : Int) * (pg2 - 1)
  let to_return : Int :=
    if pg2 = (number_pages : Int) ∧ (count : Int) - offset > 0 ∧ pg2 > 1 then
      (count : Int) - offset
    else lim
  let endIdx : Int := to_return * pg2
  (pySlice qs offset endIdx,
    { count := count
      number_of_pages := number_pages
      page_num := pg2
      limit := limN
      returned := to_return })

/-- `paginator(queryset, limit=10, page_num=1)` from
`mviews/serializer/utils.py` lines 46-82: coerce the two arguments
(`paginatorLimit`, `paginatorPage`), then compute the slice and the paging
metadata (`paginatorCore`). -/
def paginator (qs : List α) (limit page_num : PyVal) :
    Except PyErr (List α × PagMeta) := do
  let lim ← paginatorLimit limit
  let pg ← paginatorPage page_num
  pure (paginatorCore qs lim pg)

/-! ## Serialized documents

JSON-like documents: the values stored in the Python dictionaries and
lists that the serializer builds. -/

/-- A serialized document node. -/
inductive Doc where
  | int (n : Int)
  | str (s : String)
  | none_
  | obj (kvs : List (String × Doc))
  | arr (ds : List Doc)
deriving Repr

/-- Python `'{}'.format(value)` for the document values the code formats
into hyperlinks; the claims only ever format scalar unique-id values. -/
def pyFormat : Doc → String
  | .int n => toString n
  | .str s => s
  | .none_ => "None"
  | .obj _ => "{...}"
  | .arr _ => "[...]"

/-- Dictionary read `d[k]` on an object document: `KeyError` when the key
is absent, `TypeError` when `d` is not a dictionary. -/
def docGet (d : Doc) (k : String) : Except PyErr Doc :=
  match d with
  | .obj kvs =>
      match kvs.find? (fun q => q.1 == k) with
      | some q => .ok q.2
      | none => .error .keyError
  | _ => .error .typeError

/-- Total dictionary lookup (used only in theorem statements). -/
def docLookup (d : Doc) (k : String) : Option Doc :=
  match d with
  | .obj kvs => (kvs.find? (fun q => q.1 == k)).map (fun q => q.2)
  | _ => none

/-- Dictionary write `kvs[k] = v`: replace the value in place when the key
exists, append otherwise (Python dict assignment). -/
def kvSet (kvs : List (String × Doc)) (k : String) (v : Doc) :
    List (String × Doc) :=
  if kvs.any (fun q => q.1 == k) then
    kvs.map (fun q => if q.1 == k then (k, v) else q)
  else kvs ++ [(k, v)]

/-- `d[k] = v` on an object document (no-op on non-objects, which the
embedded code never reaches). -/
def docSet (d : Doc) (k : String) (v : Doc) : Doc :=
  match d with
  | .obj kvs => .obj (kvSet kvs k v)
  | d => d

/-- Nesting depth of object documents: how many `obj` layers enclose the
deepest node; arrays are transparent (their members sit at the relation
level of the field holding the array). -/
def objDepth : Doc → Nat
  | .int _ => 0
  | .str _ => 0
  | .none_ => 0
  | .obj kvs => 1 + objDepthKVs kvs
  | .arr ds => objDepthList ds
where
  /-- Maximum `objDepth` of an association list's values. -/
  objDepthKVs : List (String × Doc) → Nat
    | [] => 0
    | q :: r => max (objDepth q.2) (objDepthKVs r)
  /-- Maximum `objDepth` of a list of documents. -/
  objDepthList : List Doc → Nat
    | [] => 0
    | d :: r => max (objDepth d) (objDepthList r)

/-! ## The entity store

The persistence collaborator: entities carry a Python type (the model
class, identified by a number), named fields, and the two attributes the
serializer reads reflectively (`unique_id`, `url_path`).  Relations refer
to other entities through ids resolved in a `Store`, so cyclic schemas
(A.b -> B, B.a -> A) are representable. -/

/-- A field value as surfaced by `getattr` on a model instance. -/
inductive FieldV where
  | scalar (v : Int)
  | file (name : String)
  | fk (eid : Nat)
  | mgr (mty : Nat) (eids : List Nat)
deriving Repr, DecidableEq

/-- A model instance. `ty` is the Python class; `mgr`'s `mty` is the
dynamically generated related-manager class of that relation. -/
structure Entity where
  ty : Nat
  flds : List (String × FieldV)
  uidName : Option String := none
  urlPath : String := ""
deriving Repr, DecidableEq

/-- The entity store (database): entities by id. -/
abbrev Store := List (Nat × Entity)

/-- Fetch an entity by id. -/
def Store.fetch (st : Store) (eid : Nat) : Except PyErr Entity :=
  match st.find? (fun q => q.1 == eid) with
  | some q => .ok q.2
  | none => .error .doesNotExist

/-- Raw field access on an instance, `AttributeError` when the name is not
a field of the model. -/
def Entity.attr (e : Entity) (f : String) : Except PyErr FieldV :=
  match e.flds.find? (fun q => q.1 == f) with
  | some q => .ok q.2
  | none => .error .attributeError

/-- `_get_model_fields(model)` (`models2dicts.py` lines 112-116): the
model's declared field names. -/
def getModelFields (e : Entity) : List String :=
  e.flds.map (fun q => q.1)

/-! ## Expansion depth and queryset shaping
(`mviews/mview/modelviews.py`, `ViewWrapper.dispatch` lines 92-97 and
`BaseModelAsView._expand` lines 300-319) -/

/-- Python `s.isdigit()`: non-empty and all characters are digits. -/
def pyIsDigit (s : String) : Bool :=
  s ≠ "" && s.data.all Char.isDigit

/-- Value of an all-digits string under `int()`. -/
def digitsVal (s : String) : Nat :=
  s.data.foldl (fun a c => 10 * a + (c.toNat - 48)) 0

/-- `ViewWrapper.dispatch` lines 92-97:

```
self.sdepth = (int(self.params['_depth'])
               if self.params.get('_depth', None) is not None and
               self.params.get('_depth', None).isdigit() else 0)
if not self.sdepth:
    if hasattr(self, 'expand') or '_expand' in self.params:
        self.sdepth = 1
```

`hasExpandAttr` is `hasattr(self, 'expand')`. Note that an explicit
`_depth=0` leaves `self.sdepth` falsy, so a simultaneous `_expand`
parameter (or an `expand` class attribute) overrides it to 1. -/
def computeSdepth (p : Params) (hasExpandAttr : Bool) : Nat :=
  let d : Nat :=
    match pget p "_depth" with
    | some s => if pyIsDigit s then digitsVal s else 0
    | none => 0
  if d = 0 then
    (if hasExpandAttr || (pget p "_expand").isSome then 1 else 0)
  else d

/-- The queryset as it leaves `BaseModelAsView._expand`: either flat
`values()` dictionaries or model instances handed on for expansion. -/
inductive QsOut where
  | rows (rs : List Doc)
  | objs (es : List Entity)
deriving Repr

/-- One Django `.values()` row of an entity: every concrete column as a
scalar — plain fields by name, file fields by stored name, a to-one
relation only as its raw `<field>_id` id column — and to-many relations
not included at all. -/
def valuesRow (e : Entity) : Doc :=
  .obj (e.flds.filterMap (fun q =>
    match q.2 with
    | .scalar v => some (q.1, .int v)
    | .file nm => some (q.1, .str nm)
    | .fk eid => some (q.1 ++ "_id", .int eid)
    | .mgr _ _ => none))

/-- One Django `.values(*fields)` row: only the requested field names,
each as a scalar column (a requested to-one relation name yields its raw
id under the requested name). -/
def valuesRowFields (e : Entity) (fs : List String) : Doc :=
  .obj (fs.filterMap (fun f =>
    match e.flds.find? (fun q => q.1 == f) with
    | some q =>
        match q.2 with
        | .scalar v => some (f, .int v)
        | .file nm => some (f, .str nm)
        | .fk eid => some (f, .int eid)
        | .mgr _ _ => none
    | none => none))

/-- `BaseModelAsView._expand` (`modelviews.py` lines 300-319):

```
pfields = getattr(self, 'public_fields', [])
fields = []
if self.fields or pfields:
    if pfields and not self.fields:
        fields = pfields
    else:
        fields = self.fields
if self.sdepth:
    if fields: qs = qs.only(*fields)
    qs = qs.select_related(*self.fks).prefetch_related()
elif fields:
    qs = qs.values(*fields)
else:
    qs = qs.values()
```

With a positive depth the queryset stays a sequence of model instances
(`only`/`select_related` only shape the SQL); at depth 0 it becomes flat
`values()` rows. -/
def mviewExpand (sdepth : Nat) (mfields pfields : List String)
    (qs : List Entity) : QsOut :=
  let fields : List String :=
    if mfields ≠ [] ∨ pfields ≠ [] then
      (if pfields ≠ [] ∧ mfields = [] then pfields else mfields)
    else []
  if sdepth ≠ 0 then .objs qs
  else if fields ≠ [] then .rows (qs.map (fun e => valuesRowFields e fields))
  else .rows (qs.map valuesRow)

/-- A scalar (non-container) document node. -/
def isScalarDoc : Doc → Bool
  | .int _ => true
  | .str _ => true
  | .none_ => true
  | .obj _ => false
  | .arr _ => false

/-- A flat row: a dictionary all of whose values are scalars. -/
def flatDoc : Doc → Bool
  | .obj kvs => kvs.all (fun q => isScalarDoc q.2)
  | _ => false

/-! ## The graph serializer (`mviews/serializer/models2dicts.py`)

`_foreign_obj_to_dict` and `_foreign_rel_to_dict` are declared with
mutable default arguments `rels=set()` and `fos=set()`.  In Python those
two set objects are created once, when the module is loaded, and shared by
every call that does not pass the argument explicitly; the in-repo call
graph threads exactly those two objects through the whole recursion
(`convert_to_dicts` omits both, the recursive calls pass them on), so the
embedding threads one module-level state through every call and back out
to the caller, which is precisely the lifetime the default sets have. -/

/-- Filter argument of the converters: `convert_to_dicts` accepts either a
plain list of field names or a per-relation dictionary of them. -/
inductive FNames where
  | flist (fs : List String)
  | fdict (m : List (String × List String))
deriving Repr, DecidableEq

/-- The two module-level default sets: manager classes seen by
`_foreign_rel_to_dict` (`rels`) and model classes bracketing a to-one
recursion in `_foreign_obj_to_dict` (`fos`). -/
structure SState where
  rels : List Nat
  fos : List Nat
deriving Repr, DecidableEq

/-- Python `set.add`. -/
def setAdd (s : List Nat) (x : Nat) : List Nat :=
  if x ∈ s then s else s ++ [x]

/-- Python `set.remove`: `KeyError` when the element is absent. -/
def pySetRemove (s : List Nat) (x : Nat) : Except PyErr (List Nat) :=
  if x ∈ s then .ok (s.erase x) else .error .keyError

/-- Global configuration: the Django settings flags the serializer reads
(`HYPERLINK_VALUES` and `RETURN_SINGLES`, both defaulting to true). -/
structure Cfg where
  hyperlink_values : Bool := true
  return_singles : Bool := true
deriving Repr, DecidableEq

/-- `hyperlink(rootcall, path, append)` (`utils.py` lines 15-28):
`"{}/{}/{}".format(rootcall, path, append)` when `rootcall` is non-empty
and hyperlinking is on, else just `append`. -/
def hyperlink (cfg : Cfg) (rootcall path append : String) : String :=
  if rootcall ≠ "" ∧ cfg.hyperlink_values then
    rootcall ++ "/" ++ path ++ "/" ++ append
  else append

/-- `hyperlinkerize(value, rootcall, mview)` (`utils.py` lines 30-44):
hyperlink to `<rootcall>/<url_path>/<value>/` when `rootcall` is non-empty
and hyperlinking is on, otherwise the value itself unchanged. -/
def hyperlinkerize (cfg : Cfg) (value : Doc) (rootcall urlPath : String) : Doc :=
  if rootcall ≠ "" ∧ cfg.hyperlink_values then
    .str (hyperlink cfg rootcall urlPath (pyFormat value ++ "/"))
  else value

/-- A field value after the `getattr` descriptor has run: to-one relations
have fetched their related instance from the store. -/
inductive AttrV where
  | scalar (v : Int)
  | file (name : String)
  | obj (e : Entity)
  | mgr (mty : Nat) (eids : List Nat)
deriving Repr, DecidableEq

/-- `getattr(m, f)` with the Django related-field descriptor: a to-one
field resolves its target in the store. -/
def pyGetattr (st : Store) (e : Entity) (f : String) : Except PyErr AttrV :=
  match e.attr f with
  | .error er => .error er
  | .ok (.scalar v) => .ok (.scalar v)
  | .ok (.file nm) => .ok (.file nm)
  | .ok (.fk eid) =>
      match st.fetch eid with
      | .error er => .error er
      | .ok ch => .ok (.obj ch)
  | .ok (.mgr mty eids) => .ok (.mgr mty eids)

/-- `try: fo = getattr(fobj, f) except AttributeError: fo =
getattr(fobj, f + '_set')` (`models2dicts.py` lines 148-151); a failure
of the second access propagates. -/
def getattrFallback (st : Store) (e : Entity) (f : String) :
    Except PyErr AttrV :=
  match pyGetattr st e f with
  | .error .attributeError => pyGetattr st e (f ++ "_set")
  | r => r

/-- `_get_filter(filters, field, model)` (`models2dicts.py` lines
118-122): `filters.get(field, _get_model_fields(model))`.  When the
filter argument is a plain list it has no `.get` method and Python raises
`AttributeError`. -/
def getFilter (ff : FNames) (field : String) (m : Entity) :
    Except PyErr (List String) :=
  match ff with
  | .flist _ => .error .attributeError
  | .fdict d =>
      .ok (((d.find? (fun q => q.1 == field)).map (fun q => q.2)).getD
        (getModelFields m))

/-- The recursive converter as seen by the loop helpers:
`(related object, depth, field name, module state)` to
`(document, module state)`. -/
abbrev RecFn := Entity → Nat → String → SState → Except PyErr (Doc × SState)

/-- The member loop of `_foreign_rel_to_dict` (`models2dicts.py` lines
201-213): each member of the relation is fetched; while
`max_depth >= depth` it is converted at `depth + 1` (without any visited
check on its type) and appended. -/
def frtdMembers (st : Store) (recObj : RecFn) (depth : Nat) (field : String)
    (maxd : Nat) : List Nat → SState → Except PyErr (List Doc × SState)
  | [], s => .ok ([], s)
  | eid :: rest, s =>
      match st.fetch eid with
      | .error e => .error e
      | .ok fk =>
          if maxd ≥ depth then
            match recObj fk (depth + 1) field s with
            | .error e => .error e
            | .ok (d, s') =>
                match frtdMembers st recObj depth field maxd rest s' with
                | .error e => .error e
                | .ok (ds, s'') => .ok (d :: ds, s'')
          else frtdMembers st recObj depth field maxd rest s

/-- `_foreign_rel_to_dict` (`models2dicts.py` lines 187-213) given the
recursive converter: `rels.add(type(frel))` — an add with no matching
remove, mutating the shared default set — then the member loop. -/
def frtdWith (st : Store) (recObj : RecFn) (mty : Nat) (eids : List Nat)
    (depth : Nat) (field : String) (maxd : Nat) (s : SState) :
    Except PyErr (List Doc × SState) :=
  frtdMembers st recObj depth field maxd eids
    { s with rels := setAdd s.rels mty }

/-- The field loop of `_foreign_obj_to_dict` (`models2dicts.py` lines
147-179), given the recursive converter:

* `getattr(fobj, f)`, falling back to `getattr(fobj, f + '_set')` when the
  first raises `AttributeError` (a second failure propagates);
* a Manager: recurse into the relation when `max_depth >= depth` and the
  manager class is not in `rels`, else omit the field;
* a Model: when `max_depth >= depth`, the class differs from
  `type(base_type)` and is not in `fos`, add `type(fobj)` to `fos`,
  recurse at `depth + 1`, then `fos.remove(type(fobj))`; else omit;
* a File: its stored name; anything else: `fobj.serializable_value(f)`. -/
def fotdFields (st : Store) (recObj : RecFn) (baseTy : Option Nat)
    (fobj : Entity) (depth : Nat) (maxd : Nat) :
    List String → List (String × Doc) → SState →
    Except PyErr (List (String × Doc) × SState)
  | [], acc, s => .ok (acc, s)
  | f :: rest, acc, s =>
      match getattrFallback st fobj f with
      | .error e => .error e
      | .ok (.mgr mty eids) =>
          if maxd ≥ depth ∧ mty ∉ s.rels then
            match frtdWith st recObj mty eids (depth + 1) f maxd s with
            | .error e => .error e
            | .ok (ds, s') =>
                fotdFields st recObj baseTy fobj depth maxd rest
                  (kvSet acc f (.arr ds)) s'
          else
            fotdFields st recObj baseTy fobj depth maxd rest acc s
      | .ok (.obj fo) =>
          if maxd ≥ depth ∧ some fo.ty ≠ baseTy ∧ fo.ty ∉ s.fos then
            match recObj fo (depth + 1) f
                { s with fos := setAdd s.fos fobj.ty } with
            | .error e => .error e
            | .ok (d, s2) =>
                match pySetRemove s2.fos fobj.ty with
                | .error e => .error e
                | .ok fos2 =>
                    fotdFields st recObj baseTy fobj depth maxd rest
                      (kvSet acc f d) { s2 with fos := fos2 }
          else
            fotdFields st recObj baseTy fobj depth maxd rest acc s
      | .ok (.file nm) =>
          fotdFields st recObj baseTy fobj depth maxd rest
            (kvSet acc f (.str nm)) s
      | .ok (.scalar v) =>
          fotdFields st recObj baseTy fobj depth maxd rest
            (kvSet acc f (.int v)) s

/-- `_foreign_obj_to_dict` (`models2dicts.py` lines 124-185).  The fuel
argument only bounds the recursion depth, which the source already bounds
through its `max_depth >= depth` guards (every recursive call increments
`depth` by at least one); callers pass more fuel than the guards can
consume, so the `gasError` branch is unreachable from the entry points.

After the field loop, when `HYPERLINK_VALUES` is set, the source adds
`fkDict["url"] = hyperlinkerize(fkDict[getattr(fobj, 'unique_id', 'id')],
rootcall, fobj)` (lines 180-183), indexing the dictionary just built. -/
def fotd (cfg : Cfg) (st : Store) (baseTy : Option Nat) (ff : FNames)
    (rootcall : String) (maxd : Nat) :
    Nat → Entity → Nat → String → SState → Except PyErr (Doc × SState)
  | 0, _, _, _, _ => .error .gasError
  | gas + 1, fobj, depth, field, s =>
      match getFilter ff field fobj with
      | .error e => .error e
      | .ok fields =>
          match fotdFields st
              (fun ch d fn st' =>
                fotd cfg st baseTy ff rootcall maxd gas ch d fn st')
              baseTy fobj depth maxd fields [] s with
          | .error e => .error e
          | .ok (fkDict, s') =>
              if cfg.hyperlink_values then
                match docGet (.obj fkDict) (fobj.uidName.getD "id") with
                | .error e => .error e
                | .ok v =>
                    .ok (.obj (kvSet fkDict "url"
                      (hyperlinkerize cfg v rootcall fobj.urlPath)), s')
              else .ok (.obj fkDict, s')

/-- The inner field loop of `convert_to_dicts` (`models2dicts.py` lines
85-109) for one base model:

* `getattr(m, f)` — an `AttributeError` means "not a field on the model"
  and the field is skipped (`continue`);
* a Manager: the source calls `_foreign_rel_to_dict(base_type, field, 1,
  rootcall, depth)` (line 91) with five positional arguments where the
  callee requires six, so Python raises `TypeError` (missing `rootcall`);
* a Model: `_foreign_obj_to_dict(base_type, field, 1, field_names, f,
  rootcall, depth)` — converted at depth 1 with `max_depth = depth` and
  the two shared default sets;
* a File: its stored name; anything else: the value itself. -/
def convertRowFields (cfg : Cfg) (st : Store) (ff : FNames)
    (baseTy : Option Nat) (depth : Nat) (rootcall : String) (m : Entity) :
    List String → List (String × Doc) → SState →
    Except PyErr (List (String × Doc) × SState)
  | [], acc, s => .ok (acc, s)
  | f :: rest, acc, s =>
      match pyGetattr st m f with
      | .error .attributeError =>
          convertRowFields cfg st ff baseTy depth rootcall m rest acc s
      | .error e => .error e
      | .ok (.mgr _ _) => .error .typeError
      | .ok (.obj fobj) =>
          match fotd cfg st baseTy ff rootcall depth (depth + 2) fobj 1 f s with
          | .error e => .error e
          | .ok (d, s') =>
              convertRowFields cfg st ff baseTy depth rootcall m rest
                (kvSet acc f d) s'
      | .ok (.file nm) =>
          convertRowFields cfg st ff baseTy depth rootcall m rest
            (kvSet acc f (.str nm)) s
      | .ok (.scalar v) =>
          convertRowFields cfg st ff baseTy depth rootcall m rest
            (kvSet acc f (.int v)) s

/-- The outer loop of `convert_to_dicts` (`models2dicts.py` lines 82-110):
one dictionary per base model. -/
def convertRows (cfg : Cfg) (st : Store) (ff : FNames) (baseTy : Option Nat)
    (depth : Nat) (rootcall : String) (filt : List String) :
    List Entity → SState → Except PyErr (List Doc × SState)
  | [], s => .ok ([], s)
  | m :: rest, s =>
      match convertRowFields cfg st ff baseTy depth rootcall m filt [] s with
      | .error e => .error e
      | .ok (kvs, s') =>
          match convertRows cfg st ff baseTy depth rootcall filt rest s' with
          | .error e => .error e
          | .ok (ds, s'') => .ok (.obj kvs :: ds, s'')

/-- `convert_to_dicts(qs, field_names, base_type=None, depth=0,
rootcall='')` (`models2dicts.py` lines 33-110).

The base filter (line 78-81): for a dictionary argument,
`field_names.get("base", _get_model_fields(base_type))` — Python
evaluates the default eagerly, so with `base_type=None` the attribute
access `None._meta` raises `AttributeError` before the key is even
looked up; for a list argument the list itself.  `base_type` enters the
recursion only through `type(base_type)`, modelled by `base.map ty`.
The module state `s` holds the two shared default sets of
`_foreign_obj_to_dict`, whose contents persist across calls. -/
def baseFilter (field_names : FNames) (base : Option Entity) :
    Except PyErr (List String) :=
  match field_names with
  | .flist fs => .ok fs
  | .fdict d =>
      match base with
      | none => .error .attributeError
      | some b =>
          .ok (((d.find? (fun q => q.1 == "base")).map (fun q => q.2)).getD
            (getModelFields b))

def convertToDicts (cfg : Cfg) (st : Store) (qs : List Entity)
    (field_names : FNames) (base : Option Entity) (depth : Nat)
    (rootcall : String) (s : SState) : Except PyErr (List Doc × SState) :=
  match baseFilter field_names base with
  | .error e => .error e
  | .ok filt =>
      convertRows cfg st field_names (base.map (fun b => b.ty)) depth
        rootcall filt qs s

/-! ## The response envelope (`mviews/serializer/serializers.py` and
`create_paging_dict` from `mviews/serializer/utils.py`) -/

/-- The paging dictionary literal of `create_paging_dict` (`utils.py`
lines 104-140), keys in source order; `next`/`previous` links are present
exactly under the conditions of lines 118-139. -/
def pagingObjOf (cfg : Cfg) (path rootcall : String) (qs2 : List Doc)
    (paging : PagMeta) : Doc :=
  .obj
    [ ("count", .int qs2.length),
      ("page_count", .int paging.number_of_pages),
      ("last_page", .str (hyperlink cfg rootcall path
          ("?_page=" ++ toString paging.number_of_pages ++
            ("&_limit=" ++ toString paging.limit)))),
      ("page_number", .int paging.page_num),
      ("total_entities", .int paging.count),
      ("number_per_page", .int paging.limit),
      ("number_returned", .int paging.returned),
      ("next",
        if paging.page_num + 1 ≤ (paging.number_of_pages : Int) then
          .str (hyperlink cfg rootcall path
            ("?_page=" ++ toString (paging.page_num + 1) ++
              ("&_limit=" ++ toString paging.limit)))
        else .none_),
      ("previous",
        if paging.page_num - 1 ≤ (paging.number_of_pages : Int) ∧
            paging.page_num - 1 > 0 then
          .str (hyperlink cfg rootcall path
            ("?_page=" ++ toString (paging.page_num - 1) ++
              ("&_limit=" ++ toString paging.limit)))
        else .none_) ]

/-- `create_paging_dict(qs, path, limit, page, rootcall)` (`utils.py`
lines 84-141): paginate, then build the paging dictionary in the order
of the source literal.  The `paging.get(...)` defaults of the source are
dead code here because `paginator` always emits every key. -/
def createPagingDict (cfg : Cfg) (qs : List Doc) (path : String)
    (limit page : PyVal) (rootcall : String) :
    Except PyErr (List Doc × Doc) :=
  match paginator qs limit page with
  | .error e => .error e
  | .ok (qs2, paging) => .ok (qs2, pagingObjOf cfg path rootcall qs2 paging)

/-- The attributes of the model-as-view object that `_serialize_json`
reads.  `dunderPaginate` is `getattr(mview, '__paginate', 0)`,
`no_singles` is `getattr(mview, 'no_singles', False)`; `fields` is
`mview.fields` as `dispatch` computed it (already intersected with the
schema's field names, empty when `_fields` was not given). -/
structure MView where
  params : Params
  dunderPaginate : Nat := 0
  no_singles : Bool := false
  expand : Bool := false
  fields : List String := []
  field_names : List String := []
  unique_id : String := "id"
  url_path : String := ""
deriving Repr

/-- `r["url"] = hyperlinkerize(r[mview.unique_id], rootcall, mview)`
(`serializers.py` lines 64-67) on one row. -/
def attachUrlRow (cfg : Cfg) (mv : MView) (rootcall : String) (r : Doc) :
    Except PyErr Doc :=
  match docGet r mv.unique_id with
  | .error e => .error e
  | .ok v => .ok (docSet r "url" (hyperlinkerize cfg v rootcall mv.url_path))

/-- The loop `for r in rslt["data"]` of `serializers.py` lines 64-67. -/
def attachUrlRows (cfg : Cfg) (mv : MView) (rootcall : String) :
    List Doc → Except PyErr (List Doc)
  | [] => .ok []
  | r :: rest =>
      match attachUrlRow cfg mv rootcall r with
      | .error e => .error e
      | .ok r2 =>
          match attachUrlRows cfg mv rootcall rest with
          | .error e => .error e
          | .ok rs => .ok (r2 :: rs)

/-- `paginate = mview.params.get('_page', getattr(mview, '__paginate', 0))`
(`serializers.py` line 29) as a truthiness test: a present `_page` string
is truthy when non-empty, otherwise the `__paginate` attribute. -/
def paginateFlag (mv : MView) : Bool :=
  match pget mv.params "_page" with
  | some s => s ≠ ""
  | none => mv.dunderPaginate ≠ 0

/-- `return_single = (len(qs) > 1 or paginate or not RETURN_SINGLES or
no_singles)` (`serializers.py` lines 30-33).  Despite the name, truthy
means the wrapped `{count, data}` list form. -/
def returnSingleFlag (cfg : Cfg) (mv : MView) (qs : List Doc) : Bool :=
  qs.length > 1 || paginateFlag mv || !cfg.return_singles || mv.no_singles

/-- `mview.params.get('_limit', 10)` (`serializers.py` line 44): the raw
parameter string when present, else the integer 10. -/
def limitArg (mv : MView) : PyVal :=
  match pget mv.params "_limit" with
  | some s => .vstr s
  | none => .vint 10

/-- `mview.params.get('_page', 1)` (`serializers.py` line 45). -/
def pageArg (mv : MView) : PyVal :=
  match pget mv.params "_page" with
  | some s => .vstr s
  | none => .vint 1

/-- `serializers.py` lines 41-50: under `paginate`, slice through
`create_paging_dict` (with `_limit`/`_page` parameter strings, defaults 10
and 1) and start from its paging dictionary with `rslt["data"] = []`;
otherwise start from `{"count": len(qs), "data": []}`. -/
def envelopeBase (cfg : Cfg) (mv : MView) (qs : List Doc)
    (rootcall : String) : Except PyErr (List Doc × Doc) :=
  if paginateFlag mv then
    match createPagingDict cfg qs mv.url_path (limitArg mv) (pageArg mv)
        rootcall with
    | .error e => .error e
    | .ok (qs2, rsltP) => .ok (qs2, docSet rsltP "data" (.arr []))
  else .ok (qs, .obj [("count", .int qs.length), ("data", .arr [])])

/-- `serializers.py` lines 62-71: when `HYPERLINK_VALUES` is set and the
caller did not restrict fields, write a `url` entry into every data row
(wrapped form) or into the single document when the queryset is
non-empty (bare form). -/
def attachUrlBlock (cfg : Cfg) (mv : MView) (rootcall : String)
    (wrapped : Bool) (qs : List Doc) (rslt : Doc) : Except PyErr Doc :=
  if cfg.hyperlink_values ∧ mv.fields = [] then
    if wrapped then
      match docGet rslt "data" with
      | .error e => .error e
      | .ok (.arr ds) =>
          match attachUrlRows cfg mv rootcall ds with
          | .error e => .error e
          | .ok ds2 => .ok (docSet rslt "data" (.arr ds2))
      | .ok _ => .error .typeError
    else if qs.length ≠ 0 then
      match docGet rslt mv.unique_id with
      | .error e => .error e
      | .ok v =>
          .ok (docSet rslt "url" (hyperlinkerize cfg v rootcall mv.url_path))
    else .ok rslt
  else .ok rslt

/-- `_serialize_json(mview, qs, rootcall, extra=None)` (`serializers.py`
lines 18-74), up to (but not including) the final `json.dumps`: the
envelope as a document.

* `paginate = mview.params.get('_page', getattr(mview, '__paginate', 0))`
  — a present `_page` string is truthy when non-empty;
* `return_single = (len(qs) > 1 or paginate or not RETURN_SINGLES or
  no_singles)` — despite its name, truthy means the wrapped list form;
* with `paginate`, `create_paging_dict` builds the envelope (and may
  propagate `int()` errors from a non-numeric `_limit`/`_page`), else the
  envelope is `{"count": len(qs), "data": []}`;
* the expand branch calls `c2d(mview, qs, field_names, mview.sdepth,
  rootcall)` (line 57) — under the `convert_to_dicts` signature
  (`models2dicts.py` line 33) the mview instance lands in the queryset
  position, and `for m in qs` then iterates a model instance: `TypeError`;
* otherwise the rows go into `rslt["data"]`, or — single-result
  reduction — the envelope becomes `list(qs)[0]` when exactly one,
  falling back to the wrapper dictionary for an empty queryset;
* when `HYPERLINK_VALUES` is set and the caller did not restrict fields,
  a `url` entry is written into every row (wrapped) or into the single
  document (bare, when the queryset is non-empty);
* a provided `extra` is merged under the `extra` key. -/
def serializeJson (cfg : Cfg) (mv : MView) (qs : List Doc)
    (rootcall : String) (extra : Option Doc) : Except PyErr Doc :=
  match envelopeBase cfg mv qs rootcall with
  | .error e => .error e
  | .ok (qs2, rslt0) =>
      if mv.expand then .error .typeError
      else
        match attachUrlBlock cfg mv rootcall (returnSingleFlag cfg mv qs) qs2
            (if returnSingleFlag cfg mv qs then docSet rslt0 "data" (.arr qs2)
             else (match qs2 with | r :: _ => r | [] => rslt0)) with
        | .error e => .error e
        | .ok rslt2 =>
            .ok (match extra with
                 | some e2 => docSet rslt2 "extra" e2
                 | none => rslt2)

/-! ## Aggregation parsing (`BaseModelAsView._get_aggs`,
`mviews/mview/modelviews.py` lines 321-343) and the `latest` restriction
(`BaseModelAsView.do_get`, lines 358-365) -/

/-- A Django aggregate object `Max(f)` / `Min(f)` / `Avg(f)`. -/
inductive AggV where
  | maxA (f : String)
  | minA (f : String)
  | avgA (f : String)
deriving Repr, DecidableEq

/-- Polymorphic dict assignment (same semantics as `kvSet`). -/
def assocSet (kvs : List (String × β)) (k : String) (v : β) :
    List (String × β) :=
  if kvs.any (fun q => q.1 == k) then
    kvs.map (fun q => if q.1 == k then (k, v) else q)
  else kvs ++ [(k, v)]

/-- One `_aggs` token (`modelviews.py` lines 330-333):
`try: ag, f = agg.split(' ') except ValueError: ag, f = agg.split('+')`.
Unpacking succeeds only for exactly two pieces; when both splits fail to
give two pieces the second `ValueError` is uncaught. -/
def parseAggToken (t : String) : Except PyErr (String × String) :=
  match pySplit ' ' t with
  | [a, b] => .ok (a, b)
  | _ =>
      match pySplit '+' t with
      | [a, b] => .ok (a, b)
      | _ => .error .valueError

/-- The token loop of `_get_aggs` (`modelviews.py` lines 329-341): tokens
whose operator is outside {max,min,avg} or whose field is unknown are
skipped (`continue`); surviving tokens store `Max/Min/Avg(f)` under the
key `"<op>_<field>"`. -/
def getAggsLoop (field_names : List String) :
    List String → List (String × AggV) →
    Except PyErr (List (String × AggV))
  | [], aggers => .ok aggers
  | t :: rest, aggers =>
      match parseAggToken t with
      | .error e => .error e
      | .ok (ag, f) =>
          if (ag = "max" ∨ ag = "min" ∨ ag = "avg") ∧ field_names.contains f
          then
            getAggsLoop field_names rest (assocSet aggers (ag ++ "_" ++ f)
              (if ag = "max" then .maxA f
               else if ag = "min" then .minA f else .avgA f))
          else getAggsLoop field_names rest aggers

/-- `_get_aggs` (`modelviews.py` lines 321-343) restricted to what it
contributes to the response: `none` when `_aggs` is absent (the queryset
is returned untouched), otherwise the `aggers` mapping passed to
`annotate` (the `_aggs_only` branch only calls `qs.only()` and does not
affect the mapping). -/
def getAggs (params : Params) (field_names : List String) :
    Except PyErr (Option (List (String × AggV))) :=
  match pget params "_aggs" with
  | none => .ok none
  | some s =>
      match getAggsLoop field_names (pySplit ',' s) [] with
      | .error e => .error e
      | .ok aggers => .ok (some aggers)

/-- An `_aggs` token that unpacks into exactly two pieces at a space or,
failing that, at a plus sign — the tokens `_get_aggs` survives without
raising. -/
def aggSplittable (t : String) : Bool :=
  (pySplit ' ' t).length = 2 || (pySplit '+' t).length = 2

/-- The key column of the `aggers` dictionary. -/
def aggKeys (d : List (String × AggV)) : List String :=
  d.map (fun q => q.1)

/-- `do_get` lines 363-364: `if 'latest' in self.params: qs = [qs[0]]` —
an unguarded index into the filtered queryset. -/
def latestStep (params : Params) (qs : List α) : Except PyErr (List α) :=
  if (pget params "latest").isSome then
    match qs with
    | [] => .error .indexError
    | x :: _ => .ok [x]
  else .ok qs

/-- The queryset leaving `_expand` consists of flat scalar-only rows. -/
def flatRowsOut : QsOut → Bool
  | .rows rs => rs.all flatDoc
  | .objs _ => false

/-- One successful converter call never grows the `fos` set (keeping it
duplicate-free) and never shrinks the `rels` set. -/
def StatePres (s s' : SState) : Prop :=
  (s.fos.Nodup → s'.fos.Nodup ∧ s'.fos ⊆ s.fos) ∧ s.rels ⊆ s'.rels

/-- Sibling-suppression scenario: a root with two to-one children of the
same related model, each carrying a to-many relation through the same
related-manager class (99). -/
def sibStore : Store :=
  [ (10, { ty := 1, flds := [("c1", .fk 11), ("c2", .fk 12)] }),
    (11, { ty := 2, flds := [("x", .scalar 1), ("r", .mgr 99 [13])] }),
    (12, { ty := 2, flds := [("x", .scalar 2), ("r", .mgr 99 [13])] }),
    (13, { ty := 3, flds := [("y", .scalar 9)] }) ]

/-- The root entity of `sibStore`. -/
def sibRoot : Entity := { ty := 1, flds := [("c1", .fk 11), ("c2", .fk 12)] }

/-- Two-run scenario: a root with a to-one child that carries a to-many
relation (manager class 30). -/
def twiceStore : Store :=
  [ (1, { ty := 1, flds := [("b", .fk 2)] }),
    (2, { ty := 2, flds := [("x", .scalar 5), ("r", .mgr 30 [3])] }),
    (3, { ty := 40, flds := [("y", .scalar 7)] }) ]

/-- The root entity of `twiceStore`. -/
def twiceRoot : Entity := { ty := 1, flds := [("b", .fk 2)] }

/-- Depth-zero scenario: a root with a single to-one child. -/
def depth0Store : Store :=
  [ (1, { ty := 1, flds := [("b", .fk 2)] }),
    (2, { ty := 2, flds := [("x", .scalar 5)] }) ]

/-- The root entity of `depth0Store`. -/
def depth0Root : Entity := { ty := 1, flds := [("b", .fk 2)] }

/-- Queryset for the C5 witness: a single row without `count`/`data`
keys. -/
def c5row : Doc := .obj [("id", .int 1), ("name", .str "a")]

/-- Second row for the C5 witness's wrapped branch. -/
def c5rowB : Doc := .obj [("id", .int 2), ("name", .str "b")]

/-- Configuration for the C5 witness: hyperlinking off, `RETURN_SINGLES`
at its default. -/
def c5cfg : Cfg := { hyperlink_values := false, return_singles := true }

/-- Model-as-view attributes for the C5 witness: no parameters, all
attribute defaults. -/
def c5mv : MView := { params := [] }

/-- The wrapped envelope the C5 witness's two-row call produces. -/
def c5env2 : Doc := .obj [("count", .int 2), ("data", .arr [c5row, c5rowB])]

/-- The top-level documents of an envelope: the `data` rows of a wrapped
envelope, the bare document itself otherwise (used only in theorem
statements). -/
def envDocs (env : Doc) : List Doc :=
  match docLookup env "data" with
  | some (.arr ds) => ds
  | _ => [env]

/-- Configuration for the C6 witness, hyperlinking on. -/
def c6cfg : Cfg := { hyperlink_values := true, return_singles := true }

/-- Configuration for the C6 witness's negative branch, hyperlinking
off. -/
def c6cfgNo : Cfg := { hyperlink_values := false, return_singles := true }

/-- Model-as-view attributes for the C6 witness. -/
def c6mv : MView := { params := [], url_path := "things" }

/-- Queryset row for the C6 witness. -/
def c6row : Doc := .obj [("id", .int 7), ("name", .str "x")]

/-- The envelope the C6 witness's hyperlinked call produces. -/
def c6env : Doc := .obj [("id", .int 7), ("name", .str "x"),
  ("url", .str "http://h/things/7/")]

/-! ## Auxiliary lemmas -/

theorem flatDoc_valuesRow (e : Entity) : flatDoc (valuesRow e) = true := by
  unfold valuesRow flatDoc
  rw [List.all_eq_true]
  intro q hq
  rw [List.mem_filterMap] at hq
  obtain ⟨p, _, hpq⟩ := hq
  rcases p with ⟨f, v⟩
  cases v
  case scalar v => dsimp only at hpq; injection hpq with h2; cases h2; rfl
  case file nm => dsimp only at hpq; injection hpq with h2; cases h2; rfl
  case fk eid => dsimp only at hpq; injection hpq with h2; cases h2; rfl
  case mgr mty eids => exact Option.noConfusion hpq

theorem flatDoc_valuesRowFields (e : Entity) (fs : List String) :
    flatDoc (valuesRowFields e fs) = true := by
  unfold valuesRowFields flatDoc
  rw [List.all_eq_true]
  intro q hq
  rw [List.mem_filterMap] at hq
  obtain ⟨f, _, hpq⟩ := hq
  rcases hf : e.flds.find? (fun q => q.1 == f) with _ | p
  · rw [hf] at hpq; simp at hpq
  · rw [hf] at hpq
    rcases p with ⟨g, v⟩
    cases v
    case scalar v => dsimp only at hpq; injection hpq with h2; cases h2; rfl
    case file nm => dsimp only at hpq; injection hpq with h2; cases h2; rfl
    case fk eid => dsimp only at hpq; injection hpq with h2; cases h2; rfl
    case mgr mty eids => exact Option.noConfusion hpq

theorem statePres_rfl (s : SState) : StatePres s s :=
  ⟨fun h => ⟨h, List.Subset.refl _⟩, List.Subset.refl _⟩

theorem statePres_trans {a b c : SState} (h1 : StatePres a b)
    (h2 : StatePres b c) : StatePres a c := by
  refine ⟨fun hn => ?_, List.Subset.trans h1.2 h2.2⟩
  obtain ⟨hn1, hs1⟩ := h1.1 hn
  obtain ⟨hn2, hs2⟩ := h2.1 hn1
  exact ⟨hn2, List.Subset.trans hs2 hs1⟩

theorem subset_setAdd (s : List Nat) (x : Nat) : s ⊆ setAdd s x := by
  unfold setAdd
  split
  · exact List.Subset.refl _
  · exact List.subset_append_left _ _

theorem mem_setAdd {s : List Nat} {x y : Nat} (h : y ∈ setAdd s x) :
    y ∈ s ∨ y = x := by
  unfold setAdd at h
  split at h
  · exact Or.inl h
  · rcases List.mem_append.mp h with h | h
    · exact Or.inl h
    · simp at h
      exact Or.inr h

theorem nodup_setAdd {s : List Nat} (x : Nat) (h : s.Nodup) :
    (setAdd s x).Nodup := by
  unfold setAdd
  split
  · exact h
  · next hx =>
      simp [List.nodup_append, h]
      exact hx

theorem pySetRemove_ok {s : List Nat} {x : Nat} {s' : List Nat}
    (h : pySetRemove s x = .ok s') : s' = s.erase x ∧ x ∈ s := by
  unfold pySetRemove at h
  split at h
  · next hx => exact ⟨(Except.ok.inj h).symm, hx⟩
  · cases h

theorem frtdMembers_pres (st : Store) (recObj : RecFn) (depth : Nat)
    (field : String) (maxd : Nat)
    (hrec : ∀ ch d fn s r, recObj ch d fn s = .ok r → StatePres s r.2) :
    ∀ (eids : List Nat) (s : SState) (out : List Doc × SState),
      frtdMembers st recObj depth field maxd eids s = .ok out →
      StatePres s out.2 := by
  intro eids
  induction eids with
  | nil =>
      intro s out h
      unfold frtdMembers at h
      cases h
      exact statePres_rfl s
  | cons eid rest ih =>
      intro s out h
      unfold frtdMembers at h
      split at h
      · cases h
      · split at h
        · split at h
          · cases h
          · next d s1 hd =>
              split at h
              · cases h
              · next ds s2 hds =>
                  cases h
                  exact statePres_trans (hrec _ _ _ _ _ hd) (ih s1 (ds, s2) hds)
        · exact ih _ _ h

theorem frtdWith_pres (st : Store) (recObj : RecFn) (mty : Nat)
    (eids : List Nat) (depth : Nat) (field : String) (maxd : Nat)
    (s : SState) (out : List Doc × SState)
    (hrec : ∀ ch d fn s r, recObj ch d fn s = .ok r → StatePres s r.2)
    (h : frtdWith st recObj mty eids depth field maxd s = .ok out) :
    StatePres s out.2 := by
  unfold frtdWith at h
  exact statePres_trans (b := { s with rels := setAdd s.rels mty })
    ⟨fun hn => ⟨hn, List.Subset.refl _⟩, subset_setAdd _ _⟩
    (frtdMembers_pres st recObj depth field maxd hrec eids
      { s with rels := setAdd s.rels mty } out h)

theorem fotdFields_pres (st : Store) (recObj : RecFn) (baseTy : Option Nat)
    (fobj : Entity) (depth maxd : Nat)
    (hrec : ∀ ch d fn s r, recObj ch d fn s = .ok r → StatePres s r.2) :
    ∀ (fields : List String) (acc : List (String × Doc)) (s : SState) out,
      fotdFields st recObj baseTy fobj depth maxd fields acc s = .ok out →
      StatePres s out.2 := by
  intro fields
  induction fields with
  | nil =>
      intro acc s out h
      unfold fotdFields at h
      cases h
      exact statePres_rfl s
  | cons f rest ih =>
      intro acc s out h
      unfold fotdFields at h
      split at h
      · cases h
      · -- mgr branch
        split at h
        · split at h
          · cases h
          · next ds s1 hds =>
              exact statePres_trans
                (frtdWith_pres st recObj _ _ (depth + 1) f maxd s _ hrec hds)
                (ih _ _ _ h)
        · exact ih _ _ _ h
      · -- obj branch
        next ch =>
          split at h
          · next hguard =>
              split at h
              · cases h
              · next d s2 hd =>
                  split at h
                  · cases h
                  · next fos2 hrem =>
                      obtain ⟨he, hmem⟩ := pySetRemove_ok hrem
                      subst he
                      refine statePres_trans
                        (b := ⟨s2.rels, s2.fos.erase fobj.ty⟩) ?_ (ih _ _ _ h)
                      have hstep := hrec _ _ _ _ _ hd
                      refine ⟨fun hn => ?_, hstep.2⟩
                      obtain ⟨hn2, hs2⟩ := hstep.1 (nodup_setAdd fobj.ty hn)
                      refine ⟨hn2.erase _, ?_⟩
                      intro x hx
                      rw [hn2.mem_erase_iff] at hx
                      rcases mem_setAdd (hs2 hx.2) with h3 | h3
                      · exact h3
                      · exact absurd h3 hx.1
          · exact ih _ _ _ h
      · exact ih _ _ _ h
      · exact ih _ _ _ h

theorem fotd_pres (cfg : Cfg) (st : Store) (baseTy : Option Nat) (ff : FNames)
    (rootcall : String) (maxd : Nat) :
    ∀ (gas : Nat) (fobj : Entity) (depth : Nat) (field : String)
      (s : SState) out,
      fotd cfg st baseTy ff rootcall maxd gas fobj depth field s = .ok out →
      StatePres s out.2 := by
  intro gas
  induction gas with
  | zero =>
      intro _ _ _ _ _ h
      unfold fotd at h
      cases h
  | succ g ih =>
      intro fobj depth field s out h
      unfold fotd at h
      split at h
      · cases h
      · next fields hf =>
          split at h
          · cases h
          · next fkDict s1 hfd =>
              have hpres := fotdFields_pres st _ baseTy fobj depth maxd
                (fun ch d fn s2 r hr => ih ch d fn s2 r hr) fields [] s
                (fkDict, s1) hfd
              split at h
              · split at h
                · cases h
                · cases h
                  exact hpres
              · cases h
                exact hpres

theorem convertRowFields_pres (cfg : Cfg) (st : Store) (ff : FNames)
    (baseTy : Option Nat) (depth : Nat) (rootcall : String) (m : Entity) :
    ∀ (fs : List String) (acc : List (String × Doc)) (s : SState) out,
      convertRowFields cfg st ff baseTy depth rootcall m fs acc s = .ok out →
      StatePres s out.2 := by
  intro fs
  induction fs with
  | nil =>
      intro acc s out h
      unfold convertRowFields at h
      cases h
      exact statePres_rfl s
  | cons f rest ih =>
      intro acc s out h
      unfold convertRowFields at h
      split at h
      · exact ih _ _ _ h
      · cases h
      · cases h
      · next fobj hget =>
          split at h
          · cases h
          · next d s1 hd =>
              exact statePres_trans
                (fotd_pres cfg st baseTy ff rootcall depth (depth + 2)
                  fobj 1 f s (d, s1) hd)
                (ih _ _ _ h)
      · exact ih _ _ _ h
      · exact ih _ _ _ h

theorem convertRows_pres (cfg : Cfg) (st : Store) (ff : FNames)
    (baseTy : Option Nat) (depth : Nat) (rootcall : String)
    (filt : List String) :
    ∀ (qs : List Entity) (s : SState) out,
      convertRows cfg st ff baseTy depth rootcall filt qs s = .ok out →
      StatePres s out.2 := by
  intro qs
  induction qs with
  | nil =>
      intro s out h
      unfold convertRows at h
      cases h
      exact statePres_rfl s
  | cons m rest ih =>
      intro s out h
      unfold convertRows at h
      split at h
      · cases h
      · next kvs s1 hk =>
          split at h
          · cases h
          · next ds s2 hds =>
              cases h
              exact statePres_trans
                (convertRowFields_pres cfg st ff baseTy depth rootcall m
                  filt [] s (kvs, s1) hk)
                (ih s1 (ds, s2) hds)

theorem objDepthKVs_le_of_mem {kvs : List (String × Doc)} {q : String × Doc}
    (h : q ∈ kvs) : objDepth q.2 ≤ objDepth.objDepthKVs kvs := by
  induction kvs with
  | nil => cases h
  | cons p r ih =>
      rcases List.mem_cons.mp h with h | h
      · subst h
        exact le_max_left _ _
      · exact le_trans (ih h) (le_max_right _ _)

theorem objDepthKVs_map_replace (kvs : List (String × Doc)) (k : String)
    (v : Doc) :
    objDepth.objDepthKVs (kvs.map (fun q => if q.1 == k then (k, v) else q)) ≤
      max (objDepth.objDepthKVs kvs) (objDepth v) := by
  induction kvs with
  | nil => simp [objDepth.objDepthKVs]
  | cons p r ih =>
      simp only [List.map_cons]
      show max _ _ ≤ _
      apply max_le
      · by_cases hp : p.1 == k
        · rw [if_pos hp]
          exact le_max_right _ _
        · rw [if_neg hp]
          exact le_max_of_le_left (le_max_left _ _)
      · exact le_trans ih (max_le_max (le_max_right _ _) (le_refl _))

theorem objDepthKVs_append_single (kvs : List (String × Doc)) (k : String)
    (v : Doc) :
    objDepth.objDepthKVs (kvs ++ [(k, v)]) ≤
      max (objDepth.objDepthKVs kvs) (objDepth v) := by
  induction kvs with
  | nil =>
      show max (objDepth v) _ ≤ _
      simp [objDepth.objDepthKVs]
  | cons p r ih =>
      show max _ _ ≤ _
      apply max_le
      · exact le_max_of_le_left (le_max_left _ _)
      · exact le_trans ih (max_le_max (le_max_right _ _) (le_refl _))

theorem objDepthKVs_kvSet (kvs : List (String × Doc)) (k : String) (v : Doc) :
    objDepth.objDepthKVs (kvSet kvs k v) ≤
      max (objDepth.objDepthKVs kvs) (objDepth v) := by
  unfold kvSet
  split
  · exact objDepthKVs_map_replace kvs k v
  · exact objDepthKVs_append_single kvs k v

theorem objDepth_docGet {kvs : List (String × Doc)} {k : String} {v : Doc}
    (h : docGet (.obj kvs) k = .ok v) : objDepth v ≤ objDepth.objDepthKVs kvs := by
  unfold docGet at h
  rcases hq : List.find? (fun q => q.1 == k) kvs with _ | q
  · simp only [hq] at h
    exact Except.noConfusion h
  · simp only [hq] at h
    cases h
    exact objDepthKVs_le_of_mem (List.mem_of_find?_eq_some hq)

theorem objDepth_hyperlinkerize (cfg : Cfg) (v : Doc) (rootcall urlPath : String) :
    objDepth (hyperlinkerize cfg v rootcall urlPath) ≤ objDepth v := by
  unfold hyperlinkerize
  split
  · exact Nat.zero_le _
  · exact le_refl _

theorem frtdMembers_bound (st : Store) (recObj : RecFn) (depth : Nat)
    (field : String) (maxd : Nat) (C : Nat)
    (hrec : ∀ ch fn s r, recObj ch (depth + 1) fn s = .ok r →
      objDepth r.1 ≤ C) :
    ∀ (eids : List Nat) (s : SState) (out : List Doc × SState),
      frtdMembers st recObj depth field maxd eids s = .ok out →
      objDepth.objDepthList out.1 ≤ C := by
  intro eids
  induction eids with
  | nil =>
      intro s out h
      unfold frtdMembers at h
      cases h
      exact Nat.zero_le _
  | cons eid rest ih =>
      intro s out h
      unfold frtdMembers at h
      split at h
      · cases h
      · split at h
        · split at h
          · cases h
          · next d s1 hd =>
              split at h
              · cases h
              · next ds s2 hds =>
                  cases h
                  show max _ _ ≤ _
                  exact max_le (hrec _ _ _ _ hd) (ih s1 (ds, s2) hds)
        · exact ih _ _ h

theorem fotdFields_bound (st : Store) (recObj : RecFn) (baseTy : Option Nat)
    (fobj : Entity) (depth maxd : Nat)
    (hrec : ∀ ch dd fn s r, recObj ch dd fn s = .ok r →
      objDepth r.1 ≤ max 1 (maxd + 2 - dd)) :
    ∀ (fields : List String) (acc : List (String × Doc)) (s : SState) out,
      fotdFields st recObj baseTy fobj depth maxd fields acc s = .ok out →
      objDepth.objDepthKVs out.1 ≤
        max (objDepth.objDepthKVs acc)
          (if depth ≤ maxd then maxd + 1 - depth else 0) := by
  intro fields
  induction fields with
  | nil =>
      intro acc s out h
      unfold fotdFields at h
      cases h
      exact le_max_left _ _
  | cons f rest ih =>
      intro acc s out h
      unfold fotdFields at h
      split at h
      · cases h
      · -- mgr branch
        split at h
        · next hg =>
            split at h
            · cases h
            · next ds s1 hds =>
                have hdep : depth ≤ maxd := hg.1
                have hmem : objDepth.objDepthList ds ≤ max 1 (maxd + 2 - (depth + 2)) := by
                  unfold frtdWith at hds
                  exact frtdMembers_bound st recObj (depth + 1) f maxd _
                    (fun ch fn s2 r hr => hrec ch (depth + 2) fn s2 r hr)
                    _ _ (ds, s1) hds
                refine le_trans (ih _ _ _ h) ?_
                apply max_le _ (le_max_right _ _)
                refine le_trans (objDepthKVs_kvSet acc f (.arr ds)) ?_
                apply max_le (le_max_left _ _)
                apply le_max_of_le_right
                rw [if_pos hdep]
                show objDepth.objDepthList ds ≤ _
                refine le_trans hmem ?_
                apply max_le <;> omega
        · exact ih _ _ _ h
      · -- obj branch
        next ch hget =>
          split at h
          · next hguard =>
              split at h
              · cases h
              · next d s2 hd =>
                  split at h
                  · cases h
                  · next fos2 hrem =>
                      have hdep : depth ≤ maxd := hguard.1
                      have hv : objDepth d ≤ max 1 (maxd + 2 - (depth + 1)) :=
                        hrec _ _ _ _ _ hd
                      refine le_trans (ih _ _ _ h) ?_
                      apply max_le _ (le_max_right _ _)
                      refine le_trans (objDepthKVs_kvSet acc f d) ?_
                      apply max_le (le_max_left _ _)
                      apply le_max_of_le_right
                      rw [if_pos hdep]
                      refine le_trans hv ?_
                      apply max_le <;> omega
          · exact ih _ _ _ h
      · -- file
        refine le_trans (ih _ _ _ h) ?_
        apply max_le _ (le_max_right _ _)
        refine le_trans (objDepthKVs_kvSet acc f _) ?_
        apply max_le (le_max_left _ _)
        exact le_max_of_le_left (Nat.zero_le _)
      · -- scalar
        refine le_trans (ih _ _ _ h) ?_
        apply max_le _ (le_max_right _ _)
        refine le_trans (objDepthKVs_kvSet acc f _) ?_
        apply max_le (le_max_left _ _)
        exact le_max_of_le_left (Nat.zero_le _)

theorem fotd_bound (cfg : Cfg) (st : Store) (baseTy : Option Nat)
    (ff : FNames) (rootcall : String) (maxd : Nat) :
    ∀ (gas : Nat) (fobj : Entity) (depth : Nat) (field : String)
      (s : SState) out,
      fotd cfg st baseTy ff rootcall maxd gas fobj depth field s = .ok out →
      objDepth out.1 ≤ max 1 (maxd + 2 - depth) := by
  intro gas
  induction gas with
  | zero =>
      intro _ _ _ _ _ h
      unfold fotd at h
      cases h
  | succ g ih =>
      intro fobj depth field s out h
      unfold fotd at h
      split at h
      · cases h
      · next fields hf =>
          split at h
          · cases h
          · next fkDict s1 hfd =>
              have hkv : objDepth.objDepthKVs fkDict ≤
                  (if depth ≤ maxd then maxd + 1 - depth else 0) := by
                have hb := fotdFields_bound st _ baseTy fobj depth maxd
                  (fun ch dd fn s2 r hr => ih ch dd fn s2 r hr) fields [] s
                  (fkDict, s1) hfd
                rwa [show objDepth.objDepthKVs ([] : List (String × Doc)) = 0
                  from rfl, Nat.zero_max] at hb
              have hfinal : ∀ kvs2 : List (String × Doc),
                  objDepth.objDepthKVs kvs2 ≤
                    (if depth ≤ maxd then maxd + 1 - depth else 0) →
                  objDepth (.obj kvs2) ≤ max 1 (maxd + 2 - depth) := by
                intro kvs2 hb
                show 1 + objDepth.objDepthKVs kvs2 ≤ _
                by_cases hdep : depth ≤ maxd
                · rw [if_pos hdep] at hb
                  apply le_max_of_le_right
                  omega
                · rw [if_neg hdep] at hb
                  apply le_max_of_le_left
                  omega
              split at h
              · split at h
                · cases h
                · next v hv =>
                    cases h
                    apply hfinal
                    refine le_trans (objDepthKVs_kvSet fkDict "url" _) ?_
                    apply max_le hkv
                    exact le_trans
                      (le_trans (objDepth_hyperlinkerize cfg v rootcall _)
                        (objDepth_docGet hv)) hkv
              · cases h
                exact hfinal fkDict hkv

theorem convertRowFields_bound (cfg : Cfg) (st : Store) (ff : FNames)
    (baseTy : Option Nat) (depth : Nat) (rootcall : String) (m : Entity) :
    ∀ (fs : List String) (acc : List (String × Doc)) (s : SState) out,
      convertRowFields cfg st ff baseTy depth rootcall m fs acc s = .ok out →
      objDepth.objDepthKVs out.1 ≤
        max (objDepth.objDepthKVs acc) (depth + 1) := by
  intro fs
  induction fs with
  | nil =>
      intro acc s out h
      unfold convertRowFields at h
      cases h
      exact le_max_left _ _
  | cons f rest ih =>
      intro acc s out h
      unfold convertRowFields at h
      split at h
      · exact ih _ _ _ h
      · cases h
      · cases h
      · next fobj hget =>
          split at h
          · cases h
          · next d s1 hd =>
              have hv : objDepth d ≤ max 1 (depth + 2 - 1) :=
                fotd_bound cfg st baseTy ff rootcall depth (depth + 2)
                  fobj 1 f s (d, s1) hd
              refine le_trans (ih _ _ _ h) ?_
              apply max_le _ (le_max_right _ _)
              refine le_trans (objDepthKVs_kvSet acc f d) ?_
              apply max_le (le_max_left _ _)
              apply le_max_of_le_right
              refine le_trans hv ?_
              apply max_le <;> omega
      · refine le_trans (ih _ _ _ h) ?_
        apply max_le _ (le_max_right _ _)
        refine le_trans (objDepthKVs_kvSet acc f _) ?_
        apply max_le (le_max_left _ _)
        exact le_max_of_le_left (Nat.zero_le _)
      · refine le_trans (ih _ _ _ h) ?_
        apply max_le _ (le_max_right _ _)
        refine le_trans (objDepthKVs_kvSet acc f _) ?_
        apply max_le (le_max_left _ _)
        exact le_max_of_le_left (Nat.zero_le _)

theorem convertRows_bound (cfg : Cfg) (st : Store) (ff : FNames)
    (baseTy : Option Nat) (depth : Nat) (rootcall : String)
    (filt : List String) :
    ∀ (qs : List Entity) (s : SState) out,
      convertRows cfg st ff baseTy depth rootcall filt qs s = .ok out →
      ∀ doc ∈ out.1, objDepth doc ≤ depth + 2 := by
  intro qs
  induction qs with
  | nil =>
      intro s out h
      unfold convertRows at h
      cases h
      intro doc hd
      cases hd
  | cons m rest ih =>
      intro s out h
      unfold convertRows at h
      split at h
      · cases h
      · next kvs s1 hk =>
          split at h
          · cases h
          · next ds s2 hds =>
              cases h
              intro doc hd
              rcases List.mem_cons.mp hd with hd | hd
              · subst hd
                show 1 + objDepth.objDepthKVs kvs ≤ _
                have hb := convertRowFields_bound cfg st ff baseTy depth
                  rootcall m filt [] s (kvs, s1) hk
                rw [show objDepth.objDepthKVs ([] : List (String × Doc)) = 0
                  from rfl, Nat.zero_max] at hb
                have hb2 : objDepth.objDepthKVs kvs ≤ depth + 1 := hb
                omega
              · exact ih s1 (ds, s2) hds doc hd

theorem list_len2 {α : Type _} (l : List α) (h : l.length = 2) :
    ∃ a b, l = [a, b] := by
  rcases l with _ | ⟨a, _ | ⟨b, _ | ⟨c, tl⟩⟩⟩
  · simp at h
  · simp at h
  · exact ⟨a, b, rfl⟩
  · simp at h

theorem parseAggToken_ok (t : String) (h : aggSplittable t = true) :
    ∃ a b, parseAggToken t = .ok (a, b) := by
  unfold aggSplittable at h
  rw [Bool.or_eq_true, decide_eq_true_iff, decide_eq_true_iff] at h
  unfold parseAggToken
  rcases hs : pySplit ' ' t with _ | ⟨a, _ | ⟨b, _ | ⟨c, tl⟩⟩⟩
  · rw [hs] at h
    simp at h
    obtain ⟨a, b, hab⟩ := list_len2 _ h
    rw [hab]
    exact ⟨a, b, rfl⟩
  · rw [hs] at h
    simp at h
    obtain ⟨a2, b2, hab⟩ := list_len2 _ h
    rw [hab]
    exact ⟨a2, b2, rfl⟩
  · exact ⟨a, b, rfl⟩
  · rw [hs] at h
    simp at h
    obtain ⟨a2, b2, hab⟩ := list_len2 _ h
    rw [hab]
    exact ⟨a2, b2, rfl⟩

theorem mem_assocSet {l : List (String × AggV)} {k : String} {v : AggV}
    {kv : String × AggV} (h : kv ∈ assocSet l k v) :
    kv ∈ l ∨ kv = (k, v) := by
  unfold assocSet at h
  split at h
  · rw [List.mem_map] at h
    obtain ⟨q, hq, hqe⟩ := h
    by_cases hk : q.1 == k
    · rw [if_pos hk] at hqe
      exact Or.inr hqe.symm
    · rw [if_neg hk] at hqe
      exact Or.inl (hqe ▸ hq)
  · rcases List.mem_append.mp h with h | h
    · exact Or.inl h
    · simp at h
      exact Or.inr h

theorem aggKeys_assocSet (l : List (String × AggV)) (k : String) (v : AggV) :
    aggKeys (assocSet l k v) =
      if l.any (fun q => q.1 == k) then aggKeys l else aggKeys l ++ [k] := by
  unfold assocSet aggKeys
  split
  · next hany =>
      rw [List.map_map]
      apply List.map_congr_left
      intro q _
      by_cases hk : q.1 == k
      · simp only [Function.comp_apply, if_pos hk]
        exact (beq_iff_eq.mp hk).symm
      · simp only [Function.comp_apply, if_neg hk]
  · next hany =>
      rw [List.map_append]
      rfl

theorem mem_aggKeys_assocSet (l : List (String × AggV)) (k : String)
    (v : AggV) : k ∈ aggKeys (assocSet l k v) := by
  rw [aggKeys_assocSet]
  split
  · next hany =>
      rw [List.any_eq_true] at hany
      obtain ⟨q, hq, hqk⟩ := hany
      rw [beq_iff_eq] at hqk
      subst hqk
      exact List.mem_map.mpr ⟨q, hq, rfl⟩
  · exact List.mem_append.mpr (Or.inr (by simp))

theorem aggKeys_subset_assocSet (l : List (String × AggV)) (k : String)
    (v : AggV) : aggKeys l ⊆ aggKeys (assocSet l k v) := by
  rw [aggKeys_assocSet]
  split
  · exact List.Subset.refl _
  · exact List.subset_append_left _ _

theorem nodup_aggKeys_assocSet (l : List (String × AggV)) (k : String)
    (v : AggV) (h : (aggKeys l).Nodup) : (aggKeys (assocSet l k v)).Nodup := by
  rw [aggKeys_assocSet]
  split
  · exact h
  · next hany =>
      simp only [List.nodup_append, h, List.nodup_singleton, true_and]
      intro x hx
      simp only [List.mem_singleton]
      intro he
      subst he
      apply hany
      rw [List.any_eq_true]
      rw [aggKeys, List.mem_map] at hx
      obtain ⟨q, hq, hqk⟩ := hx
      exact ⟨q, hq, by rw [beq_iff_eq]; exact hqk⟩

theorem getAggsLoop_lenient (fns : List String) :
    ∀ (ts : List String) (acc : List (String × AggV)),
      (∀ t ∈ ts, aggSplittable t = true) →
      ∃ d, getAggsLoop fns ts acc = .ok d ∧
        (∀ kv ∈ d, kv ∈ acc ∨ ∃ f, f ∈ fns ∧
          (kv = ("max_" ++ f, AggV.maxA f) ∨ kv = ("min_" ++ f, AggV.minA f) ∨
           kv = ("avg_" ++ f, AggV.avgA f))) ∧
        aggKeys acc ⊆ aggKeys d ∧
        ((aggKeys acc).Nodup → (aggKeys d).Nodup) ∧
        (∀ t ∈ ts, ∀ ag f, parseAggToken t = .ok (ag, f) →
          (ag = "max" ∨ ag = "min" ∨ ag = "avg") → fns.contains f →
          (ag ++ "_" ++ f) ∈ aggKeys d) := by
  intro ts
  induction ts with
  | nil =>
      intro acc _
      refine ⟨acc, rfl, fun kv hkv => Or.inl hkv, List.Subset.refl _,
        fun h => h, fun t ht => absurd ht (List.not_mem_nil t)⟩
  | cons t rest ih =>
      intro acc hall
      obtain ⟨a, b, hab⟩ := parseAggToken_ok t (hall t (List.mem_cons_self t rest))
      by_cases hcond :
          (a = "max" ∨ a = "min" ∨ a = "avg") ∧ fns.contains b = true
      · set v : AggV :=
          (if a = "max" then AggV.maxA b
           else if a = "min" then AggV.minA b else AggV.avgA b) with hv
        obtain ⟨d, hd, hshape, hsub, hnd, hkeys⟩ :=
          ih (assocSet acc (a ++ "_" ++ b) v)
            (fun u hu => hall u (List.mem_cons_of_mem t hu))
        refine ⟨d, ?_, ?_, ?_, ?_, ?_⟩
        · unfold getAggsLoop
          simp only [hab]
          rw [if_pos hcond]
          exact hd
        · intro kv hkv
          rcases hshape kv hkv with hm | hm
          · rcases mem_assocSet hm with hm | hm
            · exact Or.inl hm
            · refine Or.inr ⟨b, List.mem_of_elem_eq_true hcond.2, ?_⟩
              subst hm
              rcases hcond.1 with ha | ha | ha
              · subst ha
                rw [hv]
                simp
              · subst ha
                rw [hv]
                simp
              · rcases hcond.1 with ha2 | ha2 | ha2 <;> subst ha2 <;> rw [hv] <;> simp
          · exact Or.inr hm
        · exact List.Subset.trans (aggKeys_subset_assocSet acc _ v) hsub
        · intro hn
          exact hnd (nodup_aggKeys_assocSet acc _ v hn)
        · intro u hu ag f hpar hag hf
          rcases List.mem_cons.mp hu with hu | hu
          · subst hu
            rw [hab] at hpar
            have hpq := Except.ok.inj hpar
            rw [Prod.mk.injEq] at hpq
            obtain ⟨he1, he2⟩ := hpq
            subst he1
            subst he2
            exact hsub (mem_aggKeys_assocSet acc _ v)
          · exact hkeys u hu ag f hpar hag hf
      · obtain ⟨d, hd, hshape, hsub, hnd, hkeys⟩ :=
          ih acc (fun u hu => hall u (List.mem_cons_of_mem t hu))
        refine ⟨d, ?_, hshape, hsub, hnd, ?_⟩
        · unfold getAggsLoop
          simp only [hab]
          rw [if_neg hcond]
          exact hd
        · intro u hu ag f hpar hag hf
          rcases List.mem_cons.mp hu with hu | hu
          · subst hu
            rw [hab] at hpar
            have hpq := Except.ok.inj hpar
            rw [Prod.mk.injEq] at hpq
            obtain ⟨he1, he2⟩ := hpq
            subst he1
            subst he2
            exact absurd ⟨hag, hf⟩ hcond
          · exact hkeys u hu ag f hpar hag hf

theorem find?_cons_true {α : Type _} {p : α → Bool} {a : α} (l : List α)
    (h : p a = true) : (a :: l).find? p = some a := by
  simp [List.find?, h]

theorem find?_cons_false {α : Type _} {p : α → Bool} {a : α} (l : List α)
    (h : p a = false) : (a :: l).find? p = l.find? p := by
  simp [List.find?, h]

theorem find?_map_replace_self (kvs : List (String × Doc)) (k : String)
    (v : Doc) (hany : kvs.any (fun q => q.1 == k) = true) :
    (kvs.map (fun q => if q.1 == k then (k, v) else q)).find?
      (fun q => q.1 == k) = some (k, v) := by
  induction kvs with
  | nil => simp at hany
  | cons p r ih =>
      simp only [List.map_cons]
      by_cases hp : (p.1 == k) = true
      · rw [if_pos hp]
        exact @find?_cons_true _ (fun q => q.1 == k) (k, v) _ (by simp)
      · rw [if_neg hp]
        rw [@find?_cons_false _ (fun q => q.1 == k) p _
          (Bool.eq_false_iff.mpr hp)]
        apply ih
        simp only [List.any_cons, Bool.or_eq_true] at hany
        rcases hany with hany | hany
        · exact absurd hany hp
        · exact hany

theorem find?_append_single_self (kvs : List (String × Doc)) (k : String)
    (v : Doc) (hany : ¬ kvs.any (fun q => q.1 == k) = true) :
    (kvs ++ [(k, v)]).find? (fun q => q.1 == k) = some (k, v) := by
  induction kvs with
  | nil => exact @find?_cons_true _ (fun q => q.1 == k) (k, v) _ (by simp)
  | cons p r ih =>
      simp only [List.any_cons, Bool.or_eq_true] at hany
      push_neg at hany
      rw [List.cons_append,
        @find?_cons_false _ (fun q => q.1 == k) p _
          (Bool.eq_false_iff.mpr hany.1)]
      exact ih hany.2

theorem find?_kvSet_self (kvs : List (String × Doc)) (k : String) (v : Doc) :
    (kvSet kvs k v).find? (fun q => q.1 == k) = some (k, v) := by
  unfold kvSet
  split
  · next hany => exact find?_map_replace_self kvs k v hany
  · next hany => exact find?_append_single_self kvs k v hany

theorem find?_map_replace_ne (kvs : List (String × Doc)) (k k' : String)
    (v : Doc) (h : k' ≠ k) :
    (kvs.map (fun q => if q.1 == k then (k, v) else q)).find?
      (fun q => q.1 == k') = kvs.find? (fun q => q.1 == k') := by
  have hkk : ((k, v).1 == k') = false := by
    simp only [beq_eq_false_iff_ne, ne_eq]
    exact fun he => h he.symm
  induction kvs with
  | nil => rfl
  | cons p r ih =>
      simp only [List.map_cons]
      by_cases hp : (p.1 == k) = true
      · rw [if_pos hp]
        have hpk : (p.1 == k') = false := by
          simp only [beq_eq_false_iff_ne, ne_eq]
          intro he
          exact h (he ▸ (beq_iff_eq.mp hp) ▸ rfl)
        rw [@find?_cons_false _ (fun q => q.1 == k') (k, v) _ hkk,
          @find?_cons_false _ (fun q => q.1 == k') p _ hpk]
        exact ih
      · rw [if_neg hp]
        by_cases hpk : (p.1 == k') = true
        · rw [@find?_cons_true _ (fun q => q.1 == k') p _ hpk,
            @find?_cons_true _ (fun q => q.1 == k') p _ hpk]
        · rw [@find?_cons_false _ (fun q => q.1 == k') p _
              (Bool.eq_false_iff.mpr hpk),
            @find?_cons_false _ (fun q => q.1 == k') p _
              (Bool.eq_false_iff.mpr hpk)]
          exact ih

theorem find?_append_ne (kvs : List (String × Doc)) (k k' : String)
    (v : Doc) (h : k' ≠ k) :
    (kvs ++ [(k, v)]).find? (fun q => q.1 == k') =
      kvs.find? (fun q => q.1 == k') := by
  have hkk : ((k, v).1 == k') = false := by
    simp only [beq_eq_false_iff_ne, ne_eq]
    exact fun he => h he.symm
  induction kvs with
  | nil =>
      simp only [List.nil_append]
      rw [@find?_cons_false _ (fun q => q.1 == k') (k, v) _ hkk]
  | cons p r ih =>
      rw [List.cons_append]
      by_cases hpk : (p.1 == k') = true
      · rw [@find?_cons_true _ (fun q => q.1 == k') p _ hpk,
          @find?_cons_true _ (fun q => q.1 == k') p _ hpk]
      · rw [@find?_cons_false _ (fun q => q.1 == k') p _
            (Bool.eq_false_iff.mpr hpk),
          @find?_cons_false _ (fun q => q.1 == k') p _
            (Bool.eq_false_iff.mpr hpk)]
        exact ih

theorem find?_kvSet_ne (kvs : List (String × Doc)) (k k' : String)
    (v : Doc) (h : k' ≠ k) :
    (kvSet kvs k v).find? (fun q => q.1 == k') =
      kvs.find? (fun q => q.1 == k') := by
  unfold kvSet
  split
  · exact find?_map_replace_ne kvs k k' v h
  · exact find?_append_ne kvs k k' v h

theorem docLookup_docSet_self (kvs : List (String × Doc)) (k : String)
    (v : Doc) : docLookup (docSet (.obj kvs) k v) k = some v := by
  show ((kvSet kvs k v).find? (fun q => q.1 == k)).map (fun q => q.2) =
    some v
  rw [find?_kvSet_self]
  rfl

theorem docGet_docSet_self (kvs : List (String × Doc)) (k : String)
    (v : Doc) : docGet (docSet (.obj kvs) k v) k = .ok v := by
  show (match (kvSet kvs k v).find? (fun q => q.1 == k) with
        | some q => Except.ok q.2
        | none => Except.error PyErr.keyError) = .ok v
  rw [find?_kvSet_self]

theorem docLookup_docSet_ne (d : Doc) (k k' : String) (v : Doc)
    (h : k' ≠ k) : docLookup (docSet d k v) k' = docLookup d k' := by
  cases d with
  | obj kvs =>
      show ((kvSet kvs k v).find? (fun q => q.1 == k')).map (fun q => q.2) =
        (kvs.find? (fun q => q.1 == k')).map (fun q => q.2)
      rw [find?_kvSet_ne kvs k k' v h]
  | int n => rfl
  | str s => rfl
  | none_ => rfl
  | arr ds => rfl

theorem docGet_ok_lookup {d : Doc} {k : String} {v : Doc}
    (h : docGet d k = .ok v) : docLookup d k = some v := by
  cases d with
  | obj kvs =>
      have h2 : (match kvs.find? (fun q => q.1 == k) with
        | some q => Except.ok q.2
        | none => Except.error PyErr.keyError) = Except.ok v := h
      rcases hf : kvs.find? (fun q => q.1 == k) with _ | q
      · rw [hf] at h2
        exact Except.noConfusion h2
      · rw [hf] at h2
        show (kvs.find? (fun q => q.1 == k)).map (fun q => q.2) = some v
        rw [hf]
        show some q.2 = some v
        exact congrArg some (Except.ok.inj h2)
  | int n => exact Except.noConfusion h
  | str s => exact Except.noConfusion h
  | none_ => exact Except.noConfusion h
  | arr ds => exact Except.noConfusion h

theorem docGet_obj {d : Doc} {k : String} {v : Doc}
    (h : docGet d k = .ok v) : ∃ kvs, d = .obj kvs := by
  cases d with
  | obj kvs => exact ⟨kvs, rfl⟩
  | int n => exact Except.noConfusion h
  | str s => exact Except.noConfusion h
  | none_ => exact Except.noConfusion h
  | arr ds => exact Except.noConfusion h

theorem pySlice_subset (xs : List α) (a b : Int) : pySlice xs a b ⊆ xs :=
  List.Subset.trans (List.drop_subset _ _) (List.take_subset _ _)

theorem paginator_subset (qs : List Doc) (limit page : PyVal)
    (out : List Doc × PagMeta) (h : paginator qs limit page = .ok out) :
    out.1 ⊆ qs := by
  unfold paginator at h
  rcases hl : paginatorLimit limit with el | nl <;> rw [hl] at h
  · simp [bind, Except.bind] at h
  rcases hp : paginatorPage page with ep | np <;> rw [hp] at h
  · simp [bind, Except.bind] at h
  simp only [bind, Except.bind, pure, Except.pure, Except.ok.injEq] at h
  subst h
  exact pySlice_subset _ _ _

theorem envelopeBase_shape (cfg : Cfg) (mv : MView) (qs : List Doc)
    (rootcall : String) (qs2 : List Doc) (rslt0 : Doc)
    (h : envelopeBase cfg mv qs rootcall = .ok (qs2, rslt0)) :
    (∃ kvs, rslt0 = .obj kvs) ∧
    (∃ n, docLookup rslt0 "count" = some (.int n)) ∧ qs2 ⊆ qs := by
  unfold envelopeBase at h
  split at h
  · split at h
    · cases h
    · next qs3 rsltP hcp =>
        cases h
        unfold createPagingDict at hcp
        split at hcp
        · cases hcp
        · next _ paging hpag =>
            cases hcp
            refine ⟨⟨_, rfl⟩, ⟨qs2.length, ?_⟩,
              paginator_subset _ _ _ _ hpag⟩
            rw [docLookup_docSet_ne _ _ _ _ (by decide)]
            rfl
  · cases h
    exact ⟨⟨_, rfl⟩, ⟨qs.length, rfl⟩, List.Subset.refl _⟩

theorem attachUrlRows_spec (cfg : Cfg) (mv : MView) (rootcall : String)
    (rows ds2 : List Doc) (h : attachUrlRows cfg mv rootcall rows = .ok ds2) :
    ∀ d2 ∈ ds2, ∃ r, r ∈ rows ∧ ∃ v, docGet r mv.unique_id = .ok v ∧
      d2 = docSet r "url" (hyperlinkerize cfg v rootcall mv.url_path) := by
  induction rows generalizing ds2 with
  | nil =>
      cases h
      intro d2 hd2
      cases hd2
  | cons r rest ih =>
      unfold attachUrlRows at h
      rcases hrow : attachUrlRow cfg mv rootcall r with e | r2 <;>
        simp only [hrow] at h
      · exact Except.noConfusion h
      rcases hrest : attachUrlRows cfg mv rootcall rest with e | rs <;>
        simp only [hrest] at h
      · exact Except.noConfusion h
      cases h
      intro d2 hd2
      rcases List.mem_cons.mp hd2 with hd2 | hd2
      · subst hd2
        unfold attachUrlRow at hrow
        rcases hdg : docGet r mv.unique_id with e | v <;>
          simp only [hdg] at hrow
        · exact Except.noConfusion hrow
        exact ⟨r, List.mem_cons_self _ _, v, hdg,
          (Except.ok.inj hrow).symm⟩
      · obtain ⟨r3, hr3, v, hdg, heq⟩ := ih rs hrest d2 hd2
        exact ⟨r3, List.mem_cons_of_mem _ hr3, v, hdg, heq⟩

/-! ## Claims -/

/-- C1: for every total count, limit and page the pagination engine
accepts, the computed page count equals
`max(floor(totalCount/limit), 2 if totalCount > limit else 1)`, the limit
being the accepted (post-defaulting) one. -/
theorem C1_page_count_formula (qs : List Int) (limit page : PyVal)
    (out : List Int × PagMeta) (h : paginator qs limit page = .ok out) :
    out.2.number_of_pages =
      max (qs.length / out.2.limit)
        (if out.2.limit < qs.length then 2 else 1) := by
  unfold paginator at h
  rcases hl : paginatorLimit limit with el | nl <;> rw [hl] at h
  · simp [bind, Except.bind] at h
  rcases hp : paginatorPage page with ep | np <;> rw [hp] at h
  · simp [bind, Except.bind] at h
  simp only [bind, Except.bind, pure, Except.pure, Except.ok.injEq] at h
  subst h
  rfl

/-- Witness for C1: `totalCount = 25`, `limit = 10` yields a page count of
2 — `max(floor(25/10), 2)` — not the 3 pages of a ceiling division. -/
theorem C1_page_count_formula_witness :
    paginator (List.range 25) (PyVal.vint 10) (PyVal.vint 1) =
      .ok (List.range 10,
        { count := 25, number_of_pages := 2, page_num := 1, limit := 10,
          returned := 10 }) ∧
    (2 : Nat) = max ((List.range 25).length / 10)
        (if 10 < (List.range 25).length then 2 else 1) := by
  constructor
  · rfl
  · exact C1_page_count_formula (List.range 25) (.vint 10) (.vint 1) _ rfl

/-- C9 (code bug): `paginator` wraps its `int()` coercions in
`except TypeError` only, so a `None` limit or page does default (10 and 1)
and a non-positive limit defaults to 10, but a *non-numeric string* —
which is what query parameters deliver — raises an uncaught `ValueError`
instead of defaulting. -/
theorem C9_nonnumeric_limit_raises :
    paginator ([0, 1, 2] : List Int) (.vstr "abc") (.vstr "1") =
      .error .valueError ∧
    paginator ([0, 1, 2] : List Int) (.vstr "2") (.vstr "xyz") =
      .error .valueError ∧
    paginator ([0, 1, 2] : List Int) .vnone .vnone =
      .ok ([0, 1, 2],
        { count := 3, number_of_pages := 1, page_num := 1, limit := 10,
          returned := 10 }) ∧
    paginator ([0, 1, 2] : List Int) (.vint (-5)) (.vint 1) =
      .ok ([0, 1, 2],
        { count := 3, number_of_pages := 1, page_num := 1, limit := 10,
          returned := 10 }) :=
  ⟨rfl, rfl, rfl, rfl⟩

/-- C2 counterexample: the conflicting combination `_depth=0` with
`_expand` present does *not* denote depth 0 — `dispatch` computes depth 1
(`if not self.sdepth` treats the explicit 0 as unset) — and `_expand`
then hands model objects, relation fields included, to the serializer
instead of flat rows. -/
theorem C2_conflicting_depth_counterexample :
    computeSdepth [("_depth", "0"), ("_expand", "")] false = 1 ∧
    mviewExpand (computeSdepth [("_depth", "0"), ("_expand", "")] false) [] []
        [{ ty := 1, flds := [("b", .fk 2)] }] =
      .objs [{ ty := 1, flds := [("b", .fk 2)] }] :=
  ⟨rfl, rfl⟩

/-- C2 amended: whenever the computed depth is 0 (`_depth` absent,
non-digit or 0, `_expand` absent, no `expand` attribute), the queryset
delivered for serialization is flat `values()` rows — every field value a
scalar, no relation fields; but the conflicting combination `_depth=0`
with `_expand` yields depth 1 and relation objects are passed through. -/
theorem C2_depth_zero_flat_output (p : Params) (he : Bool)
    (mf pf : List String) (qs : List Entity)
    (h : computeSdepth p he = 0) :
    flatRowsOut (mviewExpand (computeSdepth p he) mf pf qs) = true := by
  rw [h]
  unfold mviewExpand
  rw [if_neg (by simp)]
  by_cases hfe :
      (if ¬mf = [] ∨ ¬pf = [] then if ¬pf = [] ∧ mf = [] then pf else mf
       else []) ≠ []
  · rw [if_pos hfe]
    show List.all _ flatDoc = true
    rw [List.all_eq_true]
    intro r hr
    rw [List.mem_map] at hr
    obtain ⟨e, _, h2⟩ := hr
    exact h2 ▸ flatDoc_valuesRowFields e _
  · rw [if_neg hfe]
    show List.all _ flatDoc = true
    rw [List.all_eq_true]
    intro r hr
    rw [List.mem_map] at hr
    obtain ⟨e, _, h2⟩ := hr
    exact h2 ▸ flatDoc_valuesRow e

/-- Witness for C2: a request with only `_depth=0` computes depth 0 and an
entity with a to-one relation serializes to a flat row. -/
theorem C2_depth_zero_flat_output_witness :
    computeSdepth [("_depth", "0")] false = 0 ∧
    flatRowsOut (mviewExpand (computeSdepth [("_depth", "0")] false) [] []
      [{ ty := 1, flds := [("a", .scalar 4), ("b", .fk 2)] }]) = true :=
  ⟨rfl, C2_depth_zero_flat_output _ _ _ _ _ rfl⟩

/-- C10: when the `latest` parameter is present, a non-empty filtered set
yields exactly its first row, but an empty set reaches the unguarded
`qs[0]` and raises `IndexError` instead of returning an empty result. -/
theorem C10_latest_first_row_or_index_error (params : Params)
    (qs : List Doc) (h : (pget params "latest").isSome) :
    (∀ x rest, qs = x :: rest → latestStep params qs = .ok [x]) ∧
    (qs = [] → latestStep params qs = .error .indexError) := by
  constructor
  · intro x rest hq
    subst hq
    unfold latestStep
    rw [if_pos h]
  · intro hq
    subst hq
    unfold latestStep
    rw [if_pos h]

/-- Witness for C10 at a concrete parameter set: one-element and empty
querysets. -/
theorem C10_latest_first_row_or_index_error_witness :
    latestStep [("latest", "")] [Doc.int 5, Doc.int 6] = .ok [Doc.int 5] ∧
    latestStep [("latest", "")] ([] : List Doc) = .error .indexError :=
  ⟨(C10_latest_first_row_or_index_error [("latest", "")] [Doc.int 5, Doc.int 6]
      rfl).1 (Doc.int 5) [Doc.int 6] rfl,
   (C10_latest_first_row_or_index_error [("latest", "")] ([] : List Doc)
      rfl).2 rfl⟩

/-- C3 counterexample: expanding the to-many relation under the first
child puts its manager class into the shared `rels` set with no restore,
so the *sibling* child's identical relation is suppressed — its `r` field
is absent — contradicting "suppression of a type on one branch never
suppresses its expansion on a sibling branch". -/
theorem C3_sibling_suppression_counterexample :
    convertToDicts { hyperlink_values := false } sibStore [sibRoot]
        (.fdict []) (some sibRoot) 2 "" ⟨[], []⟩ =
      .ok ([.obj [("c1", .obj [("x", .int 1),
                               ("r", .arr [.obj [("y", .int 9)]])]),
                  ("c2", .obj [("x", .int 2)])]], ⟨[99], []⟩) ∧
    docLookup (.obj [("x", .int 1), ("r", .arr [.obj [("y", .int 9)]])]) "r" =
      some (.arr [.obj [("y", .int 9)]]) ∧
    docLookup (.obj [("x", .int 2)]) "r" = none :=
  ⟨rfl, rfl, rfl⟩

/-- C7 (code bug): serializing the same entity set twice with identical
arguments yields different documents.  The first run leaves manager class
30 in the module-level default `rels` set (`rels=set()` is created once
and mutated in place); the second run therefore suppresses the to-many
relation the first run expanded. -/
theorem C7_second_run_differs :
    convertToDicts { hyperlink_values := false } twiceStore [twiceRoot]
        (.fdict []) (some twiceRoot) 2 "" ⟨[], []⟩ =
      .ok ([.obj [("b", .obj [("x", .int 5),
                              ("r", .arr [.obj [("y", .int 7)]])])]],
        ⟨[30], []⟩) ∧
    convertToDicts { hyperlink_values := false } twiceStore [twiceRoot]
        (.fdict []) (some twiceRoot) 2 "" ⟨[30], []⟩ =
      .ok ([.obj [("b", .obj [("x", .int 5)])]], ⟨[30], []⟩) ∧
    ([Doc.obj [("b", .obj [("x", .int 5),
                           ("r", .arr [.obj [("y", .int 7)]])])]] :
      List Doc) ≠ [Doc.obj [("b", .obj [("x", .int 5)])]] :=
  ⟨rfl, rfl, by simp⟩

/-- C4 counterexample: at requested depth 0 the serializer still expands
the first-level to-one relation into a nested document (`convert_to_dicts`
calls `_foreign_obj_to_dict` unconditionally, before any depth guard), so
a relation is visited 1 > 0 levels from the root. -/
theorem C4_depth_zero_expansion_counterexample :
    convertToDicts { hyperlink_values := false } depth0Store [depth0Root]
        (.fdict []) (some depth0Root) 0 "" ⟨[], []⟩ =
      .ok ([.obj [("b", .obj [("x", .int 5)])]], ⟨[], []⟩) ∧
    docLookup (.obj [("b", .obj [("x", .int 5)])]) "b" =
      some (.obj [("x", .int 5)]) ∧
    isScalarDoc (.obj [("x", .int 5)]) = false :=
  ⟨rfl, rfl, rfl⟩

/-- C8 counterexample: a token that splits into two pieces neither at a
space nor at a plus sign — `_aggs=maxscore` — raises `ValueError` (lines
330-333 of `modelviews.py` catch only the first unpack failure), so
aggregation parsing is not error-free on malformed tokens. -/
theorem C8_unsplittable_token_counterexample :
    getAggs [("_aggs", "maxscore")] ["score"] = .error .valueError := rfl

/-- C6 counterexample: with hyperlinking enabled, unrestricted fields and
an *empty* rootcall, the `url` field is not skipped — it is present and
holds the raw unique-id value (`hyperlinkerize` returns the value
unchanged when `rootcall` is empty, and `_serialize_json` assigns it). -/
theorem C6_empty_rootcall_counterexample :
    serializeJson {} { params := [] } [.obj [("id", .int 7)]] "" none =
      .ok (.obj [("id", .int 7), ("url", .int 7)]) ∧
    docLookup (.obj [("id", .int 7), ("url", .int 7)]) "url" =
      some (.int 7) :=
  ⟨rfl, rfl⟩

/-- C3 amended: across any successful serialization starting from an
empty to-one visited set, the set is empty again afterwards (extended on
recursion, restored on backtrack), while the to-many visited set only
grows (never restored, persisting across branches and runs). -/
theorem C3_visited_sets_behavior (cfg : Cfg) (st : Store) (qs : List Entity)
    (ff : FNames) (b : Option Entity) (d : Nat) (rc : String) (R0 : List Nat)
    (out : List Doc × SState)
    (h : convertToDicts cfg st qs ff b d rc ⟨R0, []⟩ = .ok out) :
    out.2.fos = [] ∧ R0 ⊆ out.2.rels := by
  unfold convertToDicts at h
  split at h
  · cases h
  · next filt hfl =>
      have hp := convertRows_pres cfg st ff (b.map (fun b => b.ty)) d rc filt
        qs ⟨R0, []⟩ out h
      obtain ⟨_, hsub⟩ := hp.1 List.nodup_nil
      refine ⟨?_, hp.2⟩
      rw [List.eq_nil_iff_forall_not_mem]
      intro x hx
      exact (List.not_mem_nil x) (hsub hx)

/-- Witness for C3: the sibling store succeeds with the to-one set empty
and the to-many set retaining manager class 99; and a cyclic schema
(A.b -> B, B.a -> A) at depth 5 terminates. -/
theorem C3_visited_sets_behavior_witness :
    convertToDicts { hyperlink_values := false } sibStore [sibRoot]
        (.fdict []) (some sibRoot) 2 "" ⟨[], []⟩ =
      .ok ([.obj [("c1", .obj [("x", .int 1),
                               ("r", .arr [.obj [("y", .int 9)]])]),
                  ("c2", .obj [("x", .int 2)])]], ⟨[99], []⟩) ∧
    ((⟨[99], []⟩ : SState).fos = [] ∧
      ([] : List Nat) ⊆ (⟨[99], []⟩ : SState).rels) ∧
    convertToDicts { hyperlink_values := false }
        [ (1, { ty := 1, flds := [("b", .fk 2)] }),
          (2, { ty := 2, flds := [("a", .fk 1)] }) ]
        [{ ty := 1, flds := [("b", .fk 2)] }] (.fdict [])
        (some { ty := 1, flds := [("b", .fk 2)] }) 5 "" ⟨[], []⟩ =
      .ok ([.obj [("b", .obj [])]], ⟨[], []⟩) := by
  refine ⟨rfl, ?_, rfl⟩
  exact C3_visited_sets_behavior { hyperlink_values := false } sibStore
    [sibRoot] (.fdict []) (some sibRoot) 2 "" [] _ rfl

/-- C4 amended: a successful serialization at requested depth `d` nests
expanded relation objects at most `d + 1` levels below each root row
(each root dictionary therefore has object depth at most `d + 2`): the
first to-one hop is unconditional and each further hop requires the
incremented depth counter to stay within `d`. -/
theorem C4_nesting_bound (cfg : Cfg) (st : Store) (qs : List Entity)
    (ff : FNames) (b : Option Entity) (d : Nat) (rc : String) (s : SState)
    (out : List Doc × SState)
    (h : convertToDicts cfg st qs ff b d rc s = .ok out) :
    ∀ doc ∈ out.1, objDepth doc ≤ d + 2 := by
  unfold convertToDicts at h
  split at h
  · cases h
  · next filt hfl =>
      exact convertRows_bound cfg st ff (b.map (fun b => b.ty)) d rc filt
        qs s out h

/-- Witness for C4 at depth 1 on the one-relation store: the single row
has object depth 2 ≤ 3. -/
theorem C4_nesting_bound_witness :
    convertToDicts { hyperlink_values := false } depth0Store [depth0Root]
        (.fdict []) (some depth0Root) 1 "" ⟨[], []⟩ =
      .ok ([.obj [("b", .obj [("x", .int 5)])]], ⟨[], []⟩) ∧
    (∀ doc ∈ ([.obj [("b", .obj [("x", .int 5)])]] : List Doc),
      objDepth doc ≤ 1 + 2) :=
  ⟨rfl, C4_nesting_bound { hyperlink_values := false } depth0Store
    [depth0Root] (.fdict []) (some depth0Root) 1 "" ⟨[], []⟩ _ rfl⟩

/-- C8 amended: every `_aggs` token that unpacks into two pieces (space
or plus) is handled without error — unknown operators and unknown fields
are dropped silently, and each surviving `(op, field)` contributes exactly
one aggregate under the key `"<op>_<field>"`; tokens that unpack under
neither split raise `ValueError` instead. -/
theorem C8_lenient_token_handling (params : Params) (fns : List String)
    (s : String) (hs : pget params "_aggs" = some s)
    (hall : ∀ t ∈ pySplit ',' s, aggSplittable t = true) :
    ∃ d, getAggs params fns = .ok (some d) ∧
      (∀ kv ∈ d, ∃ f, f ∈ fns ∧
        (kv = ("max_" ++ f, AggV.maxA f) ∨ kv = ("min_" ++ f, AggV.minA f) ∨
         kv = ("avg_" ++ f, AggV.avgA f))) ∧
      (aggKeys d).Nodup ∧
      (∀ t ∈ pySplit ',' s, ∀ ag f, parseAggToken t = .ok (ag, f) →
        (ag = "max" ∨ ag = "min" ∨ ag = "avg") → fns.contains f = true →
        (ag ++ "_" ++ f) ∈ aggKeys d) := by
  obtain ⟨d, hd, hshape, hsub, hnd, hkeys⟩ :=
    getAggsLoop_lenient fns (pySplit ',' s) [] hall
  refine ⟨d, ?_, ?_, hnd (by simp [aggKeys]), hkeys⟩
  · unfold getAggs
    simp only [hs, hd]
  · intro kv hkv
    rcases hshape kv hkv with hm | hm
    · exact absurd hm (List.not_mem_nil kv)
    · exact hm

/-- Witness for C8 on `_aggs=avg+score,max score,foo+score,max bogus`
against the schema `["score"]`: parsing succeeds, the unknown operator
`foo` and unknown field `bogus` are dropped, `avg_score` and `max_score`
survive. -/
theorem C8_lenient_token_handling_witness :
    (∀ t ∈ pySplit ',' "avg+score,max score,foo+score,max bogus",
      aggSplittable t = true) ∧
    (∃ d, getAggs [("_aggs", "avg+score,max score,foo+score,max bogus")]
        ["score"] = .ok (some d) ∧
      (∀ kv ∈ d, ∃ f, f ∈ (["score"] : List String) ∧
        (kv = ("max_" ++ f, AggV.maxA f) ∨ kv = ("min_" ++ f, AggV.minA f) ∨
         kv = ("avg_" ++ f, AggV.avgA f))) ∧
      (aggKeys d).Nodup ∧
      (∀ t ∈ pySplit ',' "avg+score,max score,foo+score,max bogus",
        ∀ ag f, parseAggToken t = .ok (ag, f) →
        (ag = "max" ∨ ag = "min" ∨ ag = "avg") →
        (["score"] : List String).contains f = true →
        (ag ++ "_" ++ f) ∈ aggKeys d)) :=
  ⟨by decide,
   C8_lenient_token_handling
     [("_aggs", "avg+score,max score,foo+score,max bogus")] ["score"]
     "avg+score,max score,foo+score,max bogus" rfl (by decide)⟩

/-- C5: with exactly one matching row, pagination not requested,
`RETURN_SINGLES` at its default and no `no_singles` override, the envelope
is the bare document itself — no `count`/`data` wrapper, all other fields
those of the row (only a `url` key may be added); with two or more rows
the envelope always carries `count` and a `data` list. -/
theorem C5_single_result_reduction (cfg : Cfg) (mv : MView) (qs : List Doc)
    (rootcall : String) (extra : Option Doc) (env : Doc)
    (hok : serializeJson cfg mv qs rootcall extra = .ok env) :
    (∀ r, qs = [r] → pget mv.params "_page" = none → mv.dunderPaginate = 0 →
      cfg.return_singles = true → mv.no_singles = false → extra = none →
      docLookup r "count" = none → docLookup r "data" = none →
      docLookup env "count" = none ∧ docLookup env "data" = none ∧
        (∀ f, f ≠ "url" → docLookup env f = docLookup r f)) ∧
    (2 ≤ qs.length →
      (docLookup env "count").isSome = true ∧
      ∃ ds, docLookup env "data" = some (Doc.arr ds)) := by
  unfold serializeJson at hok
  constructor
  · intro r hqs hpage hdund hrs hns hex hcount hdata
    subst hqs
    subst hex
    have hpf : paginateFlag mv = false := by
      unfold paginateFlag
      rw [hpage, hdund]
      rfl
    have hbase : envelopeBase cfg mv [r] rootcall =
        .ok ([r], .obj [("count", .int 1), ("data", .arr [])]) := by
      unfold envelopeBase
      rw [hpf]
      rfl
    rw [hbase] at hok
    have hw : returnSingleFlag cfg mv [r] = false := by
      unfold returnSingleFlag
      rw [hpf, hrs, hns]
      rfl
    cases hexp : mv.expand with
    | true =>
        rw [hexp] at hok
        simp at hok
    | false =>
        simp only [hexp, hw] at hok
        simp only [Bool.false_eq_true, if_false] at hok
        rcases hblk : attachUrlBlock cfg mv rootcall false [r] r with e | rslt2 <;>
          simp only [hblk] at hok
        · exact Except.noConfusion hok
        have henv := Except.ok.inj hok
        subst henv
        unfold attachUrlBlock at hblk
        by_cases hcfg : cfg.hyperlink_values = true ∧ mv.fields = []
        · rw [if_pos hcfg] at hblk
          simp only [Bool.false_eq_true, if_false] at hblk
          have hlen : ([r] : List Doc).length ≠ 0 := by simp
          rw [if_pos hlen] at hblk
          rcases hdg : docGet r mv.unique_id with e | v <;>
            simp only [hdg] at hblk
          · exact Except.noConfusion hblk
          have hr2 := Except.ok.inj hblk
          subst hr2
          refine ⟨?_, ?_, ?_⟩
          · rw [docLookup_docSet_ne _ _ _ _ (by decide)]
            exact hcount
          · rw [docLookup_docSet_ne _ _ _ _ (by decide)]
            exact hdata
          · intro f hf
            rw [docLookup_docSet_ne _ _ _ _ hf]
        · rw [if_neg hcfg] at hblk
          have hr2 := Except.ok.inj hblk
          subst hr2
          exact ⟨hcount, hdata, fun f _ => rfl⟩
  · intro hlen
    have hw : returnSingleFlag cfg mv qs = true := by
      unfold returnSingleFlag
      have h1 : qs.length > 1 := hlen
      simp [h1]
    rcases hbase : envelopeBase cfg mv qs rootcall with e | ⟨qs2, rslt0⟩ <;>
      rw [hbase] at hok
    · exact Except.noConfusion hok
    obtain ⟨⟨kvs0, hobj⟩, ⟨n0, hcnt⟩, hsub⟩ :=
      envelopeBase_shape _ _ _ _ _ _ hbase
    cases hexp : mv.expand with
    | true =>
        simp only [hexp] at hok
        simp at hok
    | false =>
        simp only [hexp, hw] at hok
        simp only [Bool.false_eq_true, if_false, if_true] at hok
        rcases hblk : attachUrlBlock cfg mv rootcall true qs2
            (docSet rslt0 "data" (.arr qs2)) with e | rslt2 <;>
          simp only [hblk] at hok
        · exact Except.noConfusion hok
        have hcnt1 : docLookup (docSet rslt0 "data" (.arr qs2)) "count" =
            some (.int n0) := by
          rw [docLookup_docSet_ne _ _ _ _ (by decide)]
          exact hcnt
        have hshape2 : docLookup rslt2 "count" = some (.int n0) ∧
            ∃ ds, docLookup rslt2 "data" = some (.arr ds) := by
          unfold attachUrlBlock at hblk
          subst hobj
          by_cases hcfg : cfg.hyperlink_values = true ∧ mv.fields = []
          · rw [if_pos hcfg] at hblk
            simp only [if_true] at hblk
            rw [docGet_docSet_self] at hblk
            rcases hrows : attachUrlRows cfg mv rootcall qs2 with e | ds2 <;>
              simp only [hrows] at hblk
            · exact Except.noConfusion hblk
            have hr2 := Except.ok.inj hblk
            subst hr2
            constructor
            · rw [docLookup_docSet_ne _ _ _ _ (by decide)]
              exact hcnt1
            · exact ⟨ds2, docLookup_docSet_self _ _ _⟩
          · rw [if_neg hcfg] at hblk
            have hr2 := Except.ok.inj hblk
            subst hr2
            exact ⟨hcnt1, ⟨qs2, docLookup_docSet_self _ _ _⟩⟩
        rcases extra with _ | e2
        · have henv := Except.ok.inj hok
          subst henv
          exact ⟨by rw [hshape2.1]; rfl,
            ⟨hshape2.2.choose, hshape2.2.choose_spec⟩⟩
        · have henv := Except.ok.inj hok
          subst henv
          constructor
          · rw [docLookup_docSet_ne _ _ _ _ (by decide), hshape2.1]
            rfl
          · exact ⟨hshape2.2.choose,
              by rw [docLookup_docSet_ne _ _ _ _ (by decide)]
                 exact hshape2.2.choose_spec⟩

theorem C5_single_result_reduction_witness :
    (docLookup c5row "count" = none ∧ docLookup c5row "data" = none ∧
      (∀ f, f ≠ "url" → docLookup c5row f = docLookup c5row f)) ∧
    ((docLookup c5env2 "count").isSome = true ∧
      ∃ ds, docLookup c5env2 "data" = some (Doc.arr ds)) :=
  ⟨(C5_single_result_reduction c5cfg c5mv [c5row] "" none c5row rfl).1
      c5row rfl rfl rfl rfl rfl rfl rfl rfl,
   (C5_single_result_reduction c5cfg c5mv [c5row, c5rowB] "" none c5env2
      rfl).2 (by decide)⟩

/-- C6: when hyperlinking is on and the caller did not restrict fields,
every top-level document of a successful envelope carries a `url` value of
`rootcall ++ "/" ++ url_path ++ "/" ++ value ++ "/"` (a slash separates
the root from the path); when hyperlinking is off or fields were
restricted, no `url` key is written. -/
theorem C6_url_field_behavior (cfg : Cfg) (mv : MView) (qs : List Doc)
    (rootcall : String) (env : Doc)
    (hok : serializeJson cfg mv qs rootcall none = .ok env)
    (hdata : ∀ r ∈ qs, docLookup r "data" = none) :
    (cfg.hyperlink_values = true → mv.fields = [] → rootcall ≠ "" →
      ∀ d2 ∈ envDocs env, ∃ r, r ∈ qs ∧ ∃ v,
        docGet r mv.unique_id = .ok v ∧
        docLookup d2 "url" =
          some (.str (rootcall ++ "/" ++ mv.url_path ++ "/" ++
            (pyFormat v ++ "/")))) ∧
    ((cfg.hyperlink_values = false ∨ mv.fields ≠ []) →
      (∀ r ∈ qs, docLookup r "url" = none) →
      ∀ d2 ∈ envDocs env, docLookup d2 "url" = none) := by
  unfold serializeJson at hok
  cases hw : returnSingleFlag cfg mv qs with
  | true =>
      rcases hbase : envelopeBase cfg mv qs rootcall with e | ⟨qs2, rslt0⟩ <;>
        rw [hbase] at hok
      · exact Except.noConfusion hok
      obtain ⟨⟨kvs0, hobj⟩, -, hsub⟩ := envelopeBase_shape _ _ _ _ _ _ hbase
      cases hexp : mv.expand with
      | true =>
          rw [hexp] at hok
          simp at hok
      | false =>
          simp only [hexp, hw] at hok
          simp only [Bool.false_eq_true, if_false, if_true] at hok
          rcases hblk : attachUrlBlock cfg mv rootcall true qs2
              (docSet rslt0 "data" (.arr qs2)) with e | rslt2 <;>
            simp only [hblk] at hok
          · exact Except.noConfusion hok
          have henv := Except.ok.inj hok
          subst henv
          subst hobj
          constructor
          · intro hhv hfld hroot d2 hd2
            unfold attachUrlBlock at hblk
            rw [if_pos ⟨hhv, hfld⟩] at hblk
            simp only [if_true] at hblk
            rw [docGet_docSet_self] at hblk
            rcases hrows : attachUrlRows cfg mv rootcall qs2 with e | ds2 <;>
              simp only [hrows] at hblk
            · exact Except.noConfusion hblk
            have hr2 := Except.ok.inj hblk
            subst hr2
            have hed : envDocs (docSet (docSet (.obj kvs0) "data"
                (.arr qs2)) "data" (.arr ds2)) = ds2 := by
              have hstep : docSet (Doc.obj kvs0) "data" (Doc.arr qs2) =
                  .obj (kvSet kvs0 "data" (Doc.arr qs2)) := rfl
              unfold envDocs
              rw [hstep, docLookup_docSet_self]
            rw [hed] at hd2
            obtain ⟨r, hr, v, hdg, hd2eq⟩ :=
              attachUrlRows_spec cfg mv rootcall qs2 ds2 hrows d2 hd2
            obtain ⟨kvsr, hrobj⟩ := docGet_obj hdg
            refine ⟨r, hsub hr, v, hdg, ?_⟩
            subst hd2eq
            rw [hrobj, docLookup_docSet_self]
            unfold hyperlinkerize hyperlink
            rw [if_pos ⟨hroot, hhv⟩, if_pos ⟨hroot, hhv⟩]
          · intro hneg hurl d2 hd2
            have hnc : ¬(cfg.hyperlink_values = true ∧ mv.fields = []) := by
              rcases hneg with h | h
              · intro hc
                rw [h] at hc
                exact Bool.false_ne_true hc.1
              · intro hc
                exact h hc.2
            unfold attachUrlBlock at hblk
            rw [if_neg hnc] at hblk
            have h2 := Except.ok.inj hblk
            subst h2
            have hed : envDocs (docSet (.obj kvs0) "data" (.arr qs2)) =
                qs2 := by
              unfold envDocs
              rw [docLookup_docSet_self]
            rw [hed] at hd2
            exact hurl d2 (hsub hd2)
  | false =>
      have hlen : qs.length ≤ 1 := by
        by_contra hc
        unfold returnSingleFlag at hw
        rw [decide_eq_true (Nat.lt_of_not_le hc)] at hw
        simp at hw
      have hpf : paginateFlag mv = false := by
        unfold returnSingleFlag at hw
        cases hpm : paginateFlag mv
        · rfl
        · rw [hpm] at hw
          simp at hw
      cases qs with
      | nil =>
          have hbase : envelopeBase cfg mv [] rootcall =
              .ok ([], .obj [("count", .int 0), ("data", .arr [])]) := by
            unfold envelopeBase
            rw [hpf]
            rfl
          rw [hbase] at hok
          cases hexp : mv.expand with
          | true =>
              rw [hexp] at hok
              simp at hok
          | false =>
              simp only [hexp, hw] at hok
              simp only [Bool.false_eq_true, if_false] at hok
              have hblk0 : attachUrlBlock cfg mv rootcall false []
                  (.obj [("count", .int 0), ("data", .arr [])]) =
                  .ok (.obj [("count", .int 0), ("data", .arr [])]) := by
                unfold attachUrlBlock
                split
                · rfl
                · rfl
              rw [hblk0] at hok
              have henv := Except.ok.inj hok
              subst henv
              constructor
              · intro _ _ _ d2 hd2
                have hed : envDocs (Doc.obj [("count", .int 0),
                    ("data", .arr [])]) = [] := rfl
                rw [hed] at hd2
                cases hd2
              · intro _ _ d2 hd2
                have hed : envDocs (Doc.obj [("count", .int 0),
                    ("data", .arr [])]) = [] := rfl
                rw [hed] at hd2
                cases hd2
      | cons r rest =>
          cases rest with
          | cons r2 rest2 =>
              simp at hlen
          | nil =>
              have hbase : envelopeBase cfg mv [r] rootcall =
                  .ok ([r], .obj [("count", .int 1), ("data", .arr [])]) := by
                unfold envelopeBase
                rw [hpf]
                rfl
              rw [hbase] at hok
              cases hexp : mv.expand with
              | true =>
                  rw [hexp] at hok
                  simp at hok
              | false =>
                  simp only [hexp, hw] at hok
                  simp only [Bool.false_eq_true, if_false] at hok
                  rcases hblk : attachUrlBlock cfg mv rootcall false [r] r
                      with e | rslt2 <;> simp only [hblk] at hok
                  · exact Except.noConfusion hok
                  have henv := Except.ok.inj hok
                  subst henv
                  constructor
                  · intro hhv hfld hroot d2 hd2
                    unfold attachUrlBlock at hblk
                    rw [if_pos ⟨hhv, hfld⟩] at hblk
                    simp only [Bool.false_eq_true, if_false] at hblk
                    have hlen1 : ([r] : List Doc).length ≠ 0 := by simp
                    rw [if_pos hlen1] at hblk
                    rcases hdg : docGet r mv.unique_id with e | v <;>
                      simp only [hdg] at hblk
                    · exact Except.noConfusion hblk
                    have hr2 := Except.ok.inj hblk
                    subst hr2
                    obtain ⟨kvsr, hrobj⟩ := docGet_obj hdg
                    subst hrobj
                    have hed : envDocs (docSet (.obj kvsr) "url"
                        (hyperlinkerize cfg v rootcall mv.url_path)) =
                        [docSet (.obj kvsr) "url"
                          (hyperlinkerize cfg v rootcall mv.url_path)] := by
                      unfold envDocs
                      rw [docLookup_docSet_ne _ _ _ _ (by decide),
                        hdata (.obj kvsr) (by simp)]
                    rw [hed] at hd2
                    rw [List.mem_singleton] at hd2
                    subst hd2
                    refine ⟨Doc.obj kvsr, by simp, v, hdg, ?_⟩
                    rw [docLookup_docSet_self]
                    unfold hyperlinkerize hyperlink
                    rw [if_pos ⟨hroot, hhv⟩, if_pos ⟨hroot, hhv⟩]
                  · intro hneg hurl d2 hd2
                    have hnc : ¬(cfg.hyperlink_values = true ∧
                        mv.fields = []) := by
                      rcases hneg with h | h
                      · intro hc
                        rw [h] at hc
                        exact Bool.false_ne_true hc.1
                      · intro hc
                        exact h hc.2
                    unfold attachUrlBlock at hblk
                    rw [if_neg hnc] at hblk
                    have h2 := Except.ok.inj hblk
                    subst h2
                    have hed : envDocs r = [r] := by
                      unfold envDocs
                      rw [hdata r (by simp)]
                    rw [hed] at hd2
                    rw [List.mem_singleton] at hd2
                    subst hd2
                    exact hurl d2 (by simp)

theorem C6_url_field_behavior_witness :
    (∃ r, r ∈ [c6row] ∧ ∃ v, docGet r c6mv.unique_id = .ok v ∧
      docLookup c6env "url" =
        some (.str ("http://h" ++ "/" ++ c6mv.url_path ++ "/" ++
          (pyFormat v ++ "/")))) ∧
    docLookup c6row "url" = none := by
  constructor
  · refine (C6_url_field_behavior c6cfg c6mv [c6row] "http://h" c6env
        rfl ?_).1 rfl rfl (by decide) c6env ?_
    · intro r hr
      cases List.mem_singleton.mp hr
      rfl
    · have h : envDocs c6env = [c6env] := rfl
      rw [h]
      exact List.mem_singleton.mpr rfl
  · refine (C6_url_field_behavior c6cfgNo c6mv [c6row] "http://h" c6row
        rfl ?_).2 (Or.inl rfl) ?_ c6row ?_
    · intro r hr
      cases List.mem_singleton.mp hr
      rfl
    · intro r hr
      cases List.mem_singleton.mp hr
      rfl
    · have h : envDocs c6row = [c6row] := rfl
      rw [h]
      exact List.mem_singleton.mpr rfl

end MViews
